import Mathlib

/-!
Verification development for the weather-station reconciliation engine
(`import_csv.py` and `scripts/daily_rain_corrector.py`).

Modelling conventions (shallow embedding):
* Decimal sensor values are modelled as exact rationals `ℚ`.  A CSV cell is an
  `Option ℚ`: `some q` models a string that `parse_decimal` converts to the
  value `q`, and `none` models a string (or missing key) that raises
  `ValueError`/`KeyError`.  Python's `str(float)`/`parse_decimal` round-trip is
  value-exact, so overwriting a cell with `str(v)` is modelled as `some v`.
* Timestamps (`parse_timestamp` results) are nanosecond integers `ℤ`;
  `none` models an unparsable date/time pair.
* Python's `round(x, 2)` is modelled as `round2`, rounding to an integer
  multiple of 1/100 (half away from zero for the `.005` midpoint; the two
  models agree away from exact decimal midpoints, and no property below
  depends on midpoint behaviour).
* Row dictionaries carry many further columns that both engine passes copy
  verbatim (`row.copy()`); only the five columns the algorithms read or write
  are modelled.
-/

/-- Rounding to two decimal places, modelling Python's `round(x, 2)`:
the nearest integer number of hundredths, taking the upper one at a midpoint
(`Rat.floor` is used rather than `Int.floor` so that the definition reduces
in the kernel; `round2_eq_round` states the usual characterisation). -/
def round2 (q : ℚ) : ℚ := (((q * 100 + 1/2).floor : ℤ) : ℚ) / 100

/-- A rational that is an integer number of hundredths, i.e. a value the
reconciliation code can actually store in a two-decimal cell. -/
def Is2dec (q : ℚ) : Prop := ∃ n : ℤ, q = (n : ℚ) / 100

/-- One CSV row, restricted to the five columns the reconciliation engine
reads or writes: `Speed_kmh`, `Gust_kmh`, `Precip_Accum_mm`, `Precip_Rate_mm`
and the parsed `Date`/`Time` timestamp. -/
structure Row where
  speed : Option ℚ
  gust : Option ℚ
  accum : Option ℚ
  rate : Option ℚ
  time : Option ℤ
deriving DecidableEq, Repr

/-- All five modelled cells of every row parse successfully. -/
def allParse (rows : List Row) : Prop :=
  ∀ r ∈ rows, r.speed.isSome ∧ r.gust.isSome ∧ r.accum.isSome ∧
    r.rate.isSome ∧ r.time.isSome

/-- The parsed accumulation column of a batch. -/
def accumsOf (rows : List Row) : List ℚ := rows.filterMap (·.accum)

/-- The parsed timestamp column of a batch. -/
def timesOf (rows : List Row) : List ℤ := rows.filterMap (·.time)

/-- Timestamps of the batch are strictly increasing. -/
def timesIncreasing (rows : List Row) : Prop :=
  List.Chain' (· < ·) (timesOf rows)

/-- Pass-local state of `convert_daily_precip_to_cumulative_rain`:
`running_offset`, `prev_accum` and `daily_max`. -/
structure CState where
  offset : ℚ
  prev : Option ℚ
  dmax : ℚ
deriving DecidableEq, Repr

/-- State transition of one parsed reading of
`convert_daily_precip_to_cumulative_rain` (lines 169–180 of
`import_csv.py`). -/
def convertStep (st : CState) (cur : ℚ) : CState :=
  match st.prev with
  | some p =>
    if cur < p then
      { offset := st.offset + st.dmax, prev := some cur, dmax := cur }
    else
      { offset := st.offset, prev := some cur, dmax := max st.dmax cur }
  | none => { offset := st.offset, prev := some cur, dmax := cur }

/-- Loop of `convert_daily_precip_to_cumulative_rain`: rows whose
`Precip_Accum_mm` fails to parse are copied through without touching the
state; parsed rows update the state and are emitted with
`str(round(running_offset + current_accum, 2))`. -/
def convertGo (st : CState) : List Row → List Row
  | [] => []
  | r :: rs =>
    match r.accum with
    | none => r :: convertGo st rs
    | some cur =>
      let st' := convertStep st cur
      { r with accum := some (round2 (st'.offset + cur)) } :: convertGo st' rs

/-- State after `convert_daily_precip_to_cumulative_rain` has consumed a
prefix of the batch (used to reason about list concatenation). -/
def convertStateGo (st : CState) : List Row → CState
  | [] => st
  | r :: rs =>
    match r.accum with
    | none => convertStateGo st rs
    | some cur => convertStateGo (convertStep st cur) rs

/-- The Cumulative Counter Reconciler `convert_daily_precip_to_cumulative_rain`
(`import_csv.py` lines 141–189). -/
def convert_daily_precip_to_cumulative_rain (rows : List Row) : List Row :=
  convertGo { offset := 0, prev := none, dmax := 0 } rows

/-- Outlier-detection thresholds of `import_csv.py` (lines 33–35). -/
def MAX_WIND_GUST_KMH : ℚ := 80

/-- Maximum accumulation change per 5-minute interval (line 34). -/
def MAX_PRECIP_DELTA_MM : ℚ := 5

/-- Maximum reasonable precipitation rate in mm/h (line 35). -/
def MAX_PRECIP_RATE_MMH : ℚ := 60

/-- Sliding-window length for trend detection (line 213). -/
def TREND_WINDOW : ℕ := 5

/-- Spike multiplier for trend-aware detection (line 214). -/
def SPIKE_MULTIPLIER : ℚ := 6

/-- Wind-gust values below this are considered calm (line 215). -/
def CALM_THRESHOLD : ℚ := 10

/-- Statistics counters of `detect_and_fix_outliers` (lines 201–205). -/
structure Stats where
  windGustOutliers : ℕ
  precipAccumOutliers : ℕ
  precipRateRecalculated : ℕ
deriving DecidableEq, Repr

instance : Zero Stats := ⟨⟨0, 0, 0⟩⟩

instance : Add Stats :=
  ⟨fun a b => ⟨a.windGustOutliers + b.windGustOutliers,
    a.precipAccumOutliers + b.precipAccumOutliers,
    a.precipRateRecalculated + b.precipRateRecalculated⟩⟩

/-- Kind of one correction event (the `type` key of a fix dict). -/
inductive FixKind where
  | windGust
  | precipAccum
  | precipRate
deriving DecidableEq, Repr

/-- One correction event appended to the `fixes` list.  The reporting-only
string keys (`date`, `time`, `method`, per-kind context) are omitted; `row` is
the CSV row number `i + 2` exactly as stored by the code. -/
structure FixEvent where
  kind : FixKind
  row : ℕ
  original : ℚ
  corrected : ℚ
deriving DecidableEq, Repr

/-- Pass-local state of `detect_and_fix_outliers`: `prev_accum_original`,
`prev_accum_corrected`, `prev_time` and `recent_deltas` (lines 209–212). -/
structure DState where
  prevAccumOriginal : Option ℚ
  prevAccumCorrected : Option ℚ
  prevTime : Option ℤ
  recentDeltas : List ℚ
deriving DecidableEq, Repr

/-- Backward search for a calm gust value (lines 249–256): scan raw rows
`i-1, i-2, …` for up to `min(5, i)` positions, skipping unparsable cells,
returning the first parsed gust below `CALM_THRESHOLD`. -/
def findPrevCalm (rows : List Row) (i : ℕ) : Option ℚ :=
  (List.range' 1 (min 5 i)).findSome? fun j =>
    match rows[i - j]? with
    | some r =>
      match r.gust with
      | some c => if c < CALM_THRESHOLD then some c else none
      | none => none
    | none => none

/-- Forward search for a calm gust value (lines 259–266), up to
`min(5, len - i - 1)` positions ahead. -/
def findNextCalm (rows : List Row) (i : ℕ) : Option ℚ :=
  (List.range' 1 (min 5 (rows.length - i - 1))).findSome? fun j =>
    match rows[i + j]? with
    | some r =>
      match r.gust with
      | some c => if c < CALM_THRESHOLD then some c else none
      | none => none
    | none => none

/-- Wind-gust outlier test (lines 235–273): absolute-ceiling rule, then the
calm-neighbour spike rule on the raw rows. -/
def isGustOutlierCheck (rows : List Row) (i : ℕ) (windAvg windGust : ℚ) : Bool :=
  if MAX_WIND_GUST_KMH < windGust ∧ (windAvg < 1 ∨ windAvg * 10 < windGust) then
    true
  else if 15 < windGust then
    match findPrevCalm rows i, findNextCalm rows i with
    | some prevCalm, some nextCalm =>
      let calmAvg := (prevCalm + nextCalm) / 2
      decide (calmAvg * 5 < windGust ∧ calmAvg < 5)
    | _, _ => false
  else false

/-- Collection loop of lines 281–290: scan the already-corrected prefix
`fixed` backwards for up to `min(10, i)` positions, keeping calm gusts and
stopping once 5 have been collected. -/
def collectGo (fixed : List Row) (i : ℕ) : List ℕ → List ℚ → List ℚ
  | [], acc => acc
  | j :: js, acc =>
    match fixed[i - j]? with
    | some r =>
      match r.gust with
      | some c =>
        if c < CALM_THRESHOLD then
          let acc' := acc ++ [c]
          if 5 ≤ acc'.length then acc' else collectGo fixed i js acc'
        else collectGo fixed i js acc
      | none => collectGo fixed i js acc
    | none => collectGo fixed i js acc

/-- Previous valid (already corrected) calm gust values used to replace a
gust outlier. -/
def collectPrevGusts (fixed : List Row) (i : ℕ) : List ℚ :=
  collectGo fixed i (List.range' 1 (min 10 i)) []

/-- Wind-gust section of `detect_and_fix_outliers` (lines 231–310) for one
parsed row: returns the possibly-corrected row together with the stats
increment and correction events of this section. -/
def gustPart (rows : List Row) (showFixes : Bool) (i : ℕ) (row : Row)
    (fixed : List Row) (windAvg windGust : ℚ) : Row × Stats × List FixEvent :=
  if isGustOutlierCheck rows i windAvg windGust then
    let prevValidGusts := collectPrevGusts fixed i
    let newGust :=
      if prevValidGusts ≠ [] then
        round2 (prevValidGusts.sum / (prevValidGusts.length : ℚ))
      else windAvg
    ({ row with gust := some newGust }, ⟨1, 0, 0⟩,
      if showFixes then [⟨FixKind.windGust, i + 2, windGust, newGust⟩] else [])
  else (row, 0, [])

/-- Trend-aware precipitation outlier test (lines 333–350): fires only when
the raw delta exceeds the time-scaled ceiling; with at least two recent
deltas on record the delta must also exceed `SPIKE_MULTIPLIER` times the
average of the positive recent deltas (an empty positive subset flags
unconditionally), and with fewer than two recent deltas the ceiling alone
decides. -/
def precipIsOutlier (recentDeltas : List ℚ) (originalDelta maxDelta : ℚ) : Bool :=
  if maxDelta < originalDelta then
    if 2 ≤ recentDeltas.length then
      let positiveDeltas := recentDeltas.filter (fun d => 0 < d)
      if positiveDeltas ≠ [] then
        decide (positiveDeltas.sum / (positiveDeltas.length : ℚ) * SPIKE_MULTIPLIER
          < originalDelta)
      else true
    else true
  else false

/-- Precipitation section of `detect_and_fix_outliers` (lines 312–418) for
one parsed row (`row1` is the row after the wind-gust section): accumulation
correction, trend-window update, conditional rate recalculation, and the
update of the four pass-local trackers. -/
def precipPart (showFixes : Bool) (i : ℕ) (row1 : Row) (st : DState)
    (precipAccum precipRate0 : ℚ) (currentTime : ℤ) :
    Row × Stats × List FixEvent × DState :=
  match st.prevAccumOriginal, st.prevAccumCorrected, st.prevTime with
  | some prevOrig, some prevCorr, some prevTime =>
    let originalDelta := precipAccum - prevOrig
    let timeDeltaMinutes : ℚ := ((currentTime - prevTime : ℤ) : ℚ) / (1000000000 * 60)
    if 0 < timeDeltaMinutes then
      let maxDeltaForInterval := MAX_PRECIP_DELTA_MM * (timeDeltaMinutes / 5)
      let isOutlier := precipIsOutlier st.recentDeltas originalDelta maxDeltaForInterval
      let (row2, statsAccum, fixesAccum, correctedAccum, recent1) :=
        if isOutlier then
          (({ row1 with accum := some (round2 prevCorr) } : Row),
            (⟨0, 1, 0⟩ : Stats),
            if showFixes then
              [⟨FixKind.precipAccum, i + 2, precipAccum, round2 prevCorr⟩]
            else [],
            prevCorr, st.recentDeltas)
        else if 0 ≤ originalDelta then
          (({ row1 with accum := some (round2 (prevCorr + originalDelta)) } : Row),
            (0 : Stats), ([] : List FixEvent),
            prevCorr + originalDelta, st.recentDeltas ++ [originalDelta])
        else
          (({ row1 with accum := some (round2 precipAccum) } : Row),
            (0 : Stats), ([] : List FixEvent), precipAccum, ([] : List ℚ))
      let recent2 := if TREND_WINDOW < recent1.length then recent1.drop 1 else recent1
      let (row3, statsRate, fixesRate) :=
        if isOutlier then
          let correctedDelta := correctedAccum - prevCorr
          let timeDeltaHours := timeDeltaMinutes / 60
          if 0 < timeDeltaHours then
            let calculatedRate :=
              max 0 (min (round2 (correctedDelta / timeDeltaHours)) MAX_PRECIP_RATE_MMH)
            (({ row2 with rate := some calculatedRate } : Row),
              (⟨0, 0, 1⟩ : Stats),
              if showFixes ∧ 1/10 < |precipRate0 - calculatedRate| then
                [⟨FixKind.precipRate, i + 2, precipRate0, calculatedRate⟩]
              else [])
          else (row2, 0, [])
        else (row2, 0, [])
      (row3, statsAccum + statsRate, fixesAccum ++ fixesRate,
        ⟨some precipAccum, row3.accum, some currentTime, recent2⟩)
    else
      (row1, 0, [], ⟨some precipAccum, row1.accum, some currentTime, st.recentDeltas⟩)
  | _, _, _ =>
    (row1, 0, [], ⟨some precipAccum, row1.accum, some currentTime, st.recentDeltas⟩)

/-- Body of the main loop of `detect_and_fix_outliers` for the row at
index `i`: rows with any unparsable cell are copied through (the `except`
branch, lines 227–229), otherwise the wind-gust section runs followed by the
precipitation section. -/
def processRow (rows : List Row) (showFixes : Bool) (i : ℕ) (row : Row)
    (fixed : List Row) (st : DState) : Row × Stats × List FixEvent × DState :=
  match row.speed, row.gust, row.accum, row.rate, row.time with
  | some windAvg, some windGust, some precipAccum, some precipRate0, some currentTime =>
    let (row1, statsGust, fixesGust) :=
      gustPart rows showFixes i row fixed windAvg windGust
    let (row3, statsPrecip, fixesPrecip, st') :=
      precipPart showFixes i row1 st precipAccum precipRate0 currentTime
    (row3, statsGust + statsPrecip, fixesGust ++ fixesPrecip, st')
  | _, _, _, _, _ => (row, 0, [], st)

/-- Main loop of `detect_and_fix_outliers`; `todo` is the still-unprocessed
suffix `rows.drop i` and `fixed` the already-corrected prefix
(`fixed_rows`). -/
def detectGo (rows : List Row) (showFixes : Bool) :
    List Row → ℕ → List Row → DState → List Row × Stats × List FixEvent
  | [], _, _, _ => ([], 0, [])
  | row :: todo, i, fixed, st =>
    let (row', sInc, fInc, st') := processRow rows showFixes i row fixed st
    let (rest, s, f) := detectGo rows showFixes todo (i + 1) (fixed ++ [row']) st'
    (row' :: rest, sInc + s, fInc ++ f)

/-- The Outlier Detector/Corrector `detect_and_fix_outliers`
(`import_csv.py` lines 192–422). -/
def detect_and_fix_outliers (rows : List Row) (showFixes : Bool) :
    List Row × Stats × List FixEvent :=
  detectGo rows showFixes rows 0 [] ⟨none, none, none, []⟩

/-- One stored time-series sample used by `reconstruct_daily_rain`
(`scripts/daily_rain_corrector.py`): a timestamp in seconds and a field
value (`daily_rain_current` or `rain_mm`). -/
structure DPoint where
  time : ℚ
  val : ℚ
deriving DecidableEq, Repr

/-- Restart scan of `reconstruct_daily_rain` (lines 101–110): a restart is
detected when some value drops below its predecessor by more than the 0.5 mm
tolerance. -/
def detectRestart : List DPoint → Bool
  | p :: q :: rest => (decide (q.val < p.val - 1/2)) || detectRestart (q :: rest)
  | _ => false

/-- Linear nearest-neighbour scan of lines 137–145: walk the ground-truth
samples keeping the value whose timestamp has the strictly smallest absolute
difference to `t` seen so far (ties keep the earlier sample).  The Python
code iterates an insertion-ordered dict built from the chronologically sorted
query result, which this list scan models for distinct timestamps. -/
def closestGo (t : ℚ) : List DPoint → Option ℚ → Option ℚ → Option ℚ
  | [], _, best => best
  | pt :: rest, minDiff, best =>
    let d := |t - pt.time|
    match minDiff with
    | none => closestGo t rest (some d) (some pt.val)
    | some m =>
      if d < m then closestGo t rest (some d) (some pt.val)
      else closestGo t rest (some m) best

/-- Closest `rain_mm` value for a timestamp. -/
def closestRainMm (rainPts : List DPoint) (t : ℚ) : Option ℚ :=
  closestGo t rainPts none none

/-- Rebuild loop of lines 134–191: for every `daily_rain_current` point,
recompute `max(0, closest_rain_mm - start_rain_mm)`; alongside, emit a
precipitation-rate point whenever the previous processed point is at least
300 seconds back, updating the `prev_daily_rain`/`prev_time` trackers only at
the first point and when a rate point is emitted. -/
def rebuildDay (rainPts : List DPoint) (baseline : ℚ) :
    List DPoint → Option ℚ → ℚ → List DPoint × List DPoint
  | [], _, _ => ([], [])
  | pt :: rest, prevT, prevR =>
    match closestRainMm rainPts pt.time with
    | none => rebuildDay rainPts baseline rest prevT prevR
    | some closest =>
      let corrected := max 0 (closest - baseline)
      let dailyPoint : DPoint := ⟨pt.time, corrected⟩
      match prevT with
      | some pt0 =>
        let timeDiff := pt.time - pt0
        if 300 ≤ timeDiff then
          let rainDiff := corrected - prevR
          let rate := if 0 < timeDiff ∧ 0 ≤ rainDiff then rainDiff / timeDiff * 3600 else 0
          let (ds, rs) := rebuildDay rainPts baseline rest (some pt.time) corrected
          (dailyPoint :: ds, ⟨pt.time, rate⟩ :: rs)
        else
          let (ds, rs) := rebuildDay rainPts baseline rest (some pt0) prevR
          (dailyPoint :: ds, rs)
      | none =>
        let (ds, rs) := rebuildDay rainPts baseline rest (some pt.time) corrected
        (dailyPoint :: ds, rs)

/-- Outcome of one run of the Restart-Aware Daily Aggregator.  The two
no-write outcomes both correspond to `return True` before any point is
written back; `rebuilt` carries the corrected `daily_rain_current` series and
the recomputed `precipitation_rate_mm_h` series that are written back. -/
inductive RResult where
  | notEnoughData
  | noRestart
  | rebuilt (daily : List DPoint) (rates : List DPoint)
deriving DecidableEq, Repr

/-- Core decision logic of `reconstruct_daily_rain`
(`scripts/daily_rain_corrector.py` lines 95–210), starting from the two
extracted point lists for the target day (the surrounding InfluxDB I/O is
outside the model).  Fewer than 2 points in either series is a successful
no-op, as is the absence of a restart; otherwise the whole day is rebuilt
from the ground truth with `rain_mm_points[0]` as baseline. -/
def reconstruct_daily_rain (dailyPts rainPts : List DPoint) : RResult :=
  if dailyPts.length < 2 ∨ rainPts.length < 2 then .notEnoughData
  else if detectRestart dailyPts then
    let startRainMm := (rainPts.headD ⟨0, 0⟩).val
    let (ds, rs) := rebuildDay rainPts startRainMm dailyPts none 0
    .rebuilt ds rs
  else .noRestart

/-- Shorthand for building a fully-parsed row in concrete scenarios. -/
def mkRow (sp gu ac ra : ℚ) (t : ℤ) : Row :=
  ⟨some sp, some gu, some ac, some ra, some t⟩

/-- Concrete batch for the C3 counterexample: flat accumulation 0, then a
4 mm delta, then a 6 mm delta, rows 5 minutes apart. -/
def c3Batch : List Row :=
  [mkRow 1 1 0 0 0, mkRow 1 1 4 0 300000000000, mkRow 1 1 10 0 600000000000]

/-- Concrete batch of the C4 scenario: gusts `[5, 6, 95, 7, 6]`, average
wind 4 km/h, rows 5 minutes apart, no precipitation. -/
def c4Batch : List Row :=
  [mkRow 4 5 0 0 0, mkRow 4 6 0 0 300000000000, mkRow 4 95 0 0 600000000000,
   mkRow 4 7 0 0 900000000000, mkRow 4 6 0 0 1200000000000]

/-- Concrete batch for the C6 counterexample: a huge gust next to a
moderate one.  The first pass replaces the 200 km/h gust by the fallback
average wind 2 km/h; only then does row 1 have a calm backward neighbour,
so a second pass corrects row 1 as well. -/
def c6Batch : List Row :=
  [mkRow 2 200 0 0 0, mkRow 30 30 0 0 300000000000, mkRow 4 4 0 0 600000000000]

/-- Concrete raw sequence for the C2/C1 counterexamples: a parsed negative
accumulation value.  Its reconciled series `[5, 2]` is strictly decreasing. -/
def negBatch : List Row :=
  [mkRow 1 1 5 0 0, mkRow 1 1 (-3) 0 300000000000]

/-- Rows whose accumulation column carries the reconciled series of
`negBatch`. -/
def negDetectBatch : List Row :=
  [mkRow 1 1 5 0 0, mkRow 1 1 2 0 300000000000]

/-- Concrete batch for the C9 witness: an isolated 100 mm accumulation jump
in 5 minutes. -/
def c9Batch : List Row :=
  [mkRow 4 5 0 7 0, mkRow 4 5 100 7 300000000000]

/-- Concrete batch for the C6 witness: 1 mm of gentle rain, nothing to
correct. -/
def calmBatch : List Row :=
  [mkRow 4 5 0 0 0, mkRow 4 5 1 0 300000000000]

theorem ratFloor_eq_intFloor (q : ℚ) : q.floor = ⌊q⌋ := by
  rw [Rat.floor_def', Rat.floor_def]

theorem round2_eq_round (q : ℚ) : round2 q = ((round (q * 100) : ℤ) : ℚ) / 100 := by
  unfold round2
  rw [ratFloor_eq_intFloor, round_eq]

theorem round2_mono {a b : ℚ} (h : a ≤ b) : round2 a ≤ round2 b := by
  unfold round2
  rw [ratFloor_eq_intFloor, ratFloor_eq_intFloor]
  have hf : ⌊a * 100 + 1/2⌋ ≤ ⌊b * 100 + 1/2⌋ := Int.floor_le_floor (by nlinarith)
  have : ((⌊a * 100 + 1/2⌋ : ℤ) : ℚ) ≤ ((⌊b * 100 + 1/2⌋ : ℤ) : ℚ) := by exact_mod_cast hf
  linarith

theorem round2_is2dec (q : ℚ) : Is2dec (round2 q) := ⟨(q * 100 + 1/2).floor, rfl⟩

theorem Is2dec.round2_eq {q : ℚ} (h : Is2dec q) : round2 q = q := by
  obtain ⟨n, rfl⟩ := h
  unfold round2
  rw [ratFloor_eq_intFloor]
  have h1 : (n : ℚ) / 100 * 100 + 1/2 = (n : ℚ) + 1/2 := by ring
  rw [h1]
  have h2 : ⌊(n : ℚ) + 1/2⌋ = n + ⌊(1/2 : ℚ)⌋ := Int.floor_int_add n (1/2)
  have h3 : ⌊(1/2 : ℚ)⌋ = 0 := by
    rw [Int.floor_eq_zero_iff]
    constructor <;> norm_num
  rw [h2, h3, add_zero]

theorem round2_zero : round2 0 = 0 := by
  have h0 : Is2dec (0 : ℚ) := ⟨0, by norm_num⟩
  exact h0.round2_eq

theorem Stats.add_eq_zero {a b : Stats} (h : a + b = 0) : a = 0 ∧ b = 0 := by
  obtain ⟨a1, a2, a3⟩ := a
  obtain ⟨b1, b2, b3⟩ := b
  have h' : (⟨a1 + b1, a2 + b2, a3 + b3⟩ : Stats) = ⟨0, 0, 0⟩ := h
  have h1 : a1 + b1 = 0 := congrArg Stats.windGustOutliers h'
  have h2 : a2 + b2 = 0 := congrArg Stats.precipAccumOutliers h'
  have h3 : a3 + b3 = 0 := congrArg Stats.precipRateRecalculated h'
  constructor
  · show (⟨a1, a2, a3⟩ : Stats) = ⟨0, 0, 0⟩
    simp only [Stats.mk.injEq]
    omega
  · show (⟨b1, b2, b3⟩ : Stats) = ⟨0, 0, 0⟩
    simp only [Stats.mk.injEq]
    omega

theorem Stats.zero_def : (0 : Stats) = ⟨0, 0, 0⟩ := rfl

theorem detectRestart_eq_false (pts : List DPoint)
    (h : List.Chain' (fun p q => ¬(q.val < p.val - 1/2)) pts) :
    detectRestart pts = false := by
  induction pts with
  | nil => rfl
  | cons p rest ih =>
    cases rest with
    | nil => rfl
    | cons q rest' =>
      rw [List.chain'_cons] at h
      have : detectRestart (p :: q :: rest') =
          ((decide (q.val < p.val - 1/2)) || detectRestart (q :: rest')) := rfl
      rw [this, ih h.2, decide_eq_false h.1]
      rfl

/-- C8: a stored "rain today" series with no adjacent drop of more than the
0.5 mm tolerance triggers no restart, so `reconstruct_daily_rain` returns
success without writing anything back (either the not-enough-data no-op or
the no-restart no-op). -/
theorem c8_no_restart_noop (daily rain : List DPoint)
    (h : List.Chain' (fun p q => ¬(q.val < p.val - 1/2)) daily) :
    reconstruct_daily_rain daily rain = RResult.notEnoughData ∨
      reconstruct_daily_rain daily rain = RResult.noRestart := by
  unfold reconstruct_daily_rain
  by_cases hlen : daily.length < 2 ∨ rain.length < 2
  · left
    rw [if_pos hlen]
  · right
    rw [if_neg hlen, detectRestart_eq_false daily h]
    rfl

/-- Witness for C8 at a concrete non-decreasing series. -/
theorem c8_no_restart_noop_witness :
    List.Chain' (fun p q => ¬(q.val < p.val - 1/2))
      [(⟨0, 1⟩ : DPoint), ⟨300, 2⟩, ⟨600, 2⟩] ∧
    (reconstruct_daily_rain [(⟨0, 1⟩ : DPoint), ⟨300, 2⟩, ⟨600, 2⟩]
        [(⟨0, 10⟩ : DPoint), ⟨610, 13⟩] = RResult.notEnoughData ∨
      reconstruct_daily_rain [(⟨0, 1⟩ : DPoint), ⟨300, 2⟩, ⟨600, 2⟩]
        [(⟨0, 10⟩ : DPoint), ⟨610, 13⟩] = RResult.noRestart) :=
  ⟨by simp [List.chain'_cons, List.chain'_singleton]; norm_num,
    c8_no_restart_noop _ _
      (by simp [List.chain'_cons, List.chain'_singleton]; norm_num)⟩

/-- C3 (amended): for a delta above the time-scaled ceiling, the
precipitation check flags the row iff the raw trend window holds fewer than
2 deltas, or holds no positive delta, or the delta exceeds
`SPIKE_MULTIPLIER` times the average of its positive deltas.  (The claim's
window-non-empty criterion is gated by the raw window length, not by the
positive-delta window being non-empty.) -/
theorem c3_trend_gate (recent : List ℚ) (delta maxd : ℚ) (h : maxd < delta) :
    (precipIsOutlier recent delta maxd = true ↔
      recent.length < 2 ∨ recent.filter (fun d => 0 < d) = [] ∨
        (recent.filter (fun d => 0 < d)).sum /
          ((recent.filter (fun d => 0 < d)).length : ℚ) * SPIKE_MULTIPLIER < delta) := by
  unfold precipIsOutlier
  rw [if_pos h]
  by_cases h2 : 2 ≤ recent.length
  · rw [if_pos h2]
    by_cases h3 : recent.filter (fun d => 0 < d) ≠ []
    · rw [if_pos h3]
      simp only [decide_eq_true_eq]
      constructor
      · intro hlt
        exact Or.inr (Or.inr hlt)
      · rintro (hc | hc | hc)
        · omega
        · exact absurd hc h3
        · exact hc
    · rw [if_neg h3]
      push_neg at h3
      simp only [true_iff]
      exact Or.inr (Or.inl h3)
  · rw [if_neg h2]
    simp only [true_iff]
    left
    omega

/-- Witness for C3 (amended): the ceiling-exceeding delta 100 with an empty
window is flagged. -/
theorem c3_trend_gate_witness :
    (5 : ℚ) < 100 ∧
      (precipIsOutlier [] 100 5 = true ↔
        ([] : List ℚ).length < 2 ∨ ([] : List ℚ).filter (fun d => 0 < d) = [] ∨
          (([] : List ℚ).filter (fun d => 0 < d)).sum /
            ((([] : List ℚ).filter (fun d => 0 < d)).length : ℚ) * SPIKE_MULTIPLIER < 100) :=
  ⟨by norm_num, c3_trend_gate [] 100 5 (by norm_num)⟩

/-- C3 counterexample: with window `[4]` the positive-delta window is
non-empty and the ceiling-exceeding delta 6 does NOT exceed 6 times its
average 4, yet the code flags the row (the `len(recent_deltas) >= 2` gate
fires first); the claimed iff fails.  The last conjunct shows the state is
reached by a real run: `c3Batch` gets exactly this row flagged. -/
theorem c3_counterexample :
    ([(4 : ℚ)].filter (fun d => 0 < d)) ≠ [] ∧
    ¬(([(4 : ℚ)].filter (fun d => 0 < d)).sum /
        (([(4 : ℚ)].filter (fun d => 0 < d)).length : ℚ) * SPIKE_MULTIPLIER < 6) ∧
    precipIsOutlier [4] 6 (MAX_PRECIP_DELTA_MM * ((5 : ℚ) / 5)) = true ∧
    (detect_and_fix_outliers c3Batch true).2.1.precipAccumOutliers = 1 ∧
    (detect_and_fix_outliers c3Batch true).2.2 =
      [⟨FixKind.precipAccum, 4, 10, 4⟩] := by
  with_unfolding_all decide

/-- C4 counterexample: on the gust sequence `[5, 6, 95, 7, 6]` with average
wind 4 km/h the corrected gust at index 2 is 5.5, not the claimed 6.0: the
correction scans only backward over already-corrected rows, so it averages
the calm values `{6, 5}`, never seeing the forward neighbours `{7, 6}`. -/
theorem c4_counterexample :
    ((detect_and_fix_outliers c4Batch true).1.map (·.gust)) =
      [some 5, some 6, some (11/2), some 7, some 6] ∧ (11/2 : ℚ) ≠ 6 := by
  with_unfolding_all decide

set_option maxRecDepth 8000 in
/-- C4 (amended): on the gust sequence `[5, 6, 95, 7, 6]` with average wind
4 km/h, exactly index 2 is flagged as a wind-gust outlier (95 > 80 and
95 > 10·4) and its gust is replaced with 5.5, the rounded mean of the up to
five calm already-corrected gusts found scanning backward, namely
`(6, 5)`. -/
theorem c4_gust_scenario :
    (detect_and_fix_outliers c4Batch true).1.map (·.gust) =
      [some 5, some 6, some (11/2), some 7, some 6] ∧
    (detect_and_fix_outliers c4Batch true).2.1 = ⟨1, 0, 0⟩ ∧
    (detect_and_fix_outliers c4Batch true).2.2 =
      [⟨FixKind.windGust, 4, 95, 11/2⟩] ∧
    collectPrevGusts ((detect_and_fix_outliers c4Batch true).1.take 2) 2 = [6, 5] ∧
    round2 ((6 + 5) / 2) = 11/2 := by
  refine ⟨?_, ?_, ?_, ?_, ?_⟩ <;> with_unfolding_all decide

/-- C6 counterexample: `detect_and_fix_outliers` is not idempotent.  On
`c6Batch` (all rows parse, timestamps strictly increasing) the first pass
replaces the 200 km/h gust of row 0 by the fallback value 2 km/h; in the
second pass row 1 (gust 30) suddenly has a calm backward neighbour, is
flagged by the calm-neighbour spike rule, and is corrected, so the second
pass reports a nonzero counter and changes its input. -/
theorem c6_counterexample :
    allParse c6Batch ∧ timesIncreasing c6Batch ∧
    (detect_and_fix_outliers
        (detect_and_fix_outliers c6Batch true).1 true).2.1.windGustOutliers = 1 ∧
    (detect_and_fix_outliers (detect_and_fix_outliers c6Batch true).1 true).1 ≠
      (detect_and_fix_outliers c6Batch true).1 := by
  refine ⟨?_, ?_, ?_, ?_⟩
  · intro r hr
    simp only [c6Batch, mkRow, List.mem_cons, List.not_mem_nil, or_false] at hr
    rcases hr with rfl | rfl | rfl <;> simp
  · simp only [timesIncreasing, timesOf, c6Batch, mkRow, List.filterMap_cons,
      List.filterMap_nil, List.chain'_cons, List.chain'_singleton, and_true]
    norm_num
  · with_unfolding_all decide
  · with_unfolding_all decide

theorem accumsOf_eq_of_map {rows : List Row} {vs : List ℚ}
    (h : rows.map (·.accum) = vs.map some) : accumsOf rows = vs := by
  induction rows generalizing vs with
  | nil => cases vs with
    | nil => rfl
    | cons v vs' => simp at h
  | cons r rs ih =>
    cases vs with
    | nil => simp at h
    | cons v vs' =>
      simp only [List.map_cons, List.cons.injEq] at h
      simp only [accumsOf, List.filterMap_cons, h.1]
      exact congrArg (v :: ·) (ih h.2)

theorem convertGo_chain (rows : List Row) : ∀ (off p dm : ℚ),
    (∀ v ∈ accumsOf rows, 0 ≤ v) → p ≤ dm →
    List.Chain' (· ≤ ·)
      (round2 (off + p) :: accumsOf (convertGo ⟨off, some p, dm⟩ rows)) := by
  induction rows with
  | nil =>
    intro off p dm _ _
    simp [convertGo, accumsOf]
  | cons r rs ih =>
    intro off p dm hnn hpd
    match hacc : r.accum with
    | none =>
      have : convertGo ⟨off, some p, dm⟩ (r :: rs) =
          r :: convertGo ⟨off, some p, dm⟩ rs := by
        simp [convertGo, hacc]
      rw [this]
      have hskip : accumsOf (r :: convertGo ⟨off, some p, dm⟩ rs) =
          accumsOf (convertGo ⟨off, some p, dm⟩ rs) := by
        simp [accumsOf, List.filterMap_cons, hacc]
      rw [hskip]
      apply ih off p dm _ hpd
      intro v hv
      exact hnn v (by simpa [accumsOf, List.filterMap_cons, hacc] using hv)
    | some cur =>
      have hconsAcc : accumsOf (r :: rs) = cur :: accumsOf rs := by
        simp [accumsOf, List.filterMap_cons, hacc]
      have hnn' : ∀ v ∈ accumsOf rs, 0 ≤ v := by
        intro v hv
        exact hnn v (by rw [hconsAcc]; exact List.mem_cons_of_mem cur hv)
      have hcur : 0 ≤ cur := hnn cur (by rw [hconsAcc]; exact List.mem_cons_self cur _)
      by_cases hlt : cur < p
      · have hstep : convertStep ⟨off, some p, dm⟩ cur =
            ⟨off + dm, some cur, cur⟩ := by
          simp [convertStep, hlt]
        have : convertGo ⟨off, some p, dm⟩ (r :: rs) =
            { r with accum := some (round2 (off + dm + cur)) } ::
              convertGo ⟨off + dm, some cur, cur⟩ rs := by
          simp only [convertGo, hacc, hstep]
        rw [this]
        have hacc2 : accumsOf ({ r with accum := some (round2 (off + dm + cur)) } ::
            convertGo ⟨off + dm, some cur, cur⟩ rs) =
            round2 (off + dm + cur) :: accumsOf (convertGo ⟨off + dm, some cur, cur⟩ rs) := by
          simp [accumsOf, List.filterMap_cons]
        rw [hacc2]
        have htail := ih (off + dm) cur cur hnn' le_rfl
        have hhead : round2 (off + p) ≤ round2 (off + dm + cur) :=
          round2_mono (by linarith)
        exact List.chain'_cons.mpr ⟨hhead, htail⟩
      · have hstep : convertStep ⟨off, some p, dm⟩ cur =
            ⟨off, some cur, max dm cur⟩ := by
          simp [convertStep, hlt]
        have : convertGo ⟨off, some p, dm⟩ (r :: rs) =
            { r with accum := some (round2 (off + cur)) } ::
              convertGo ⟨off, some cur, max dm cur⟩ rs := by
          simp only [convertGo, hacc, hstep]
        rw [this]
        have hacc2 : accumsOf ({ r with accum := some (round2 (off + cur)) } ::
            convertGo ⟨off, some cur, max dm cur⟩ rs) =
            round2 (off + cur) :: accumsOf (convertGo ⟨off, some cur, max dm cur⟩ rs) := by
          simp [accumsOf, List.filterMap_cons]
        rw [hacc2]
        push_neg at hlt
        have htail := ih off cur (max dm cur) hnn' (le_max_right dm cur)
        have hhead : round2 (off + p) ≤ round2 (off + cur) :=
          round2_mono (by linarith)
        exact List.chain'_cons.mpr ⟨hhead, htail⟩

theorem convert_chain (rows : List Row) (vs : List ℚ)
    (hmap : rows.map (·.accum) = vs.map some) (hnn : ∀ v ∈ vs, 0 ≤ v) :
    List.Chain' (· ≤ ·) (accumsOf (convert_daily_precip_to_cumulative_rain rows)) := by
  cases rows with
  | nil => simp [convert_daily_precip_to_cumulative_rain, convertGo, accumsOf]
  | cons r rs =>
    cases vs with
    | nil => simp at hmap
    | cons v vs' =>
      simp only [List.map_cons, List.cons.injEq] at hmap
      have hvals : accumsOf rs = vs' := accumsOf_eq_of_map hmap.2
      have hstep : convertStep ⟨0, none, 0⟩ v = ⟨0, some v, v⟩ := by
        simp [convertStep]
      have : convert_daily_precip_to_cumulative_rain (r :: rs) =
          { r with accum := some (round2 (0 + v)) } :: convertGo ⟨0, some v, v⟩ rs := by
        simp only [convert_daily_precip_to_cumulative_rain, convertGo, hmap.1, hstep]
      rw [this]
      have hacc2 : accumsOf ({ r with accum := some (round2 (0 + v)) } ::
          convertGo ⟨0, some v, v⟩ rs) =
          round2 (0 + v) :: accumsOf (convertGo ⟨0, some v, v⟩ rs) := by
        simp [accumsOf, List.filterMap_cons]
      rw [hacc2]
      apply convertGo_chain rs 0 v v _ le_rfl
      rw [hvals]
      intro x hx
      exact hnn x (List.mem_cons_of_mem v hx)

theorem convertGo_asc_accums (off : ℚ) : ∀ (rows : List Row) (vs : List ℚ) (p : ℚ),
    rows.map (·.accum) = vs.map some → List.Chain' (· ≤ ·) (p :: vs) →
    (convertGo ⟨off, some p, p⟩ rows).map (·.accum) =
      vs.map (fun v => some (round2 (off + v))) := by
  intro rows
  induction rows with
  | nil =>
    intro vs p hmap _
    cases vs with
    | nil => rfl
    | cons v vs' => simp at hmap
  | cons r rs ih =>
    intro vs p hmap hchain
    cases vs with
    | nil => simp at hmap
    | cons v vs' =>
      simp only [List.map_cons, List.cons.injEq] at hmap
      rw [List.chain'_cons] at hchain
      have hlt : ¬(v < p) := not_lt.mpr hchain.1
      have hstep : convertStep ⟨off, some p, p⟩ v = ⟨off, some v, max p v⟩ := by
        simp [convertStep, hlt]
      have hmax : max p v = v := max_eq_right hchain.1
      have : convertGo ⟨off, some p, p⟩ (r :: rs) =
          { r with accum := some (round2 (off + v)) } ::
            convertGo ⟨off, some v, v⟩ rs := by
        simp only [convertGo, hmap.1, hstep, hmax]
      rw [this, List.map_cons, ih vs' v hmap.2 hchain.2, List.map_cons]

theorem convertStateGo_asc (off : ℚ) : ∀ (rows : List Row) (vs : List ℚ) (p : ℚ),
    rows.map (·.accum) = vs.map some → List.Chain' (· ≤ ·) (p :: vs) →
    convertStateGo ⟨off, some p, p⟩ rows =
      ⟨off, some (vs.getLastD p), vs.getLastD p⟩ := by
  intro rows
  induction rows with
  | nil =>
    intro vs p hmap _
    cases vs with
    | nil => rfl
    | cons v vs' => simp at hmap
  | cons r rs ih =>
    intro vs p hmap hchain
    cases vs with
    | nil => simp at hmap
    | cons v vs' =>
      simp only [List.map_cons, List.cons.injEq] at hmap
      rw [List.chain'_cons] at hchain
      have hlt : ¬(v < p) := not_lt.mpr hchain.1
      have hstep : convertStep ⟨off, some p, p⟩ v = ⟨off, some v, max p v⟩ := by
        simp [convertStep, hlt]
      have hmax : max p v = v := max_eq_right hchain.1
      have : convertStateGo ⟨off, some p, p⟩ (r :: rs) =
          convertStateGo ⟨off, some v, v⟩ rs := by
        simp only [convertStateGo, hmap.1, hstep, hmax]
      rw [this, ih vs' v hmap.2 hchain.2, List.getLastD_cons]

theorem convertGo_append (st : CState) (xs ys : List Row) :
    convertGo st (xs ++ ys) = convertGo st xs ++ convertGo (convertStateGo st xs) ys := by
  induction xs generalizing st with
  | nil => rfl
  | cons x xs' ih =>
    match hacc : x.accum with
    | none =>
      simp only [List.cons_append, convertGo, convertStateGo, hacc]
      exact congrArg (x :: ·) (ih st)
    | some cur =>
      simp only [List.cons_append, convertGo, convertStateGo, hacc]
      exact congrArg _ (ih (convertStep st cur))

theorem le_getLastD_of_chain' : ∀ (as : List ℚ) (a x : ℚ),
    List.Chain' (· ≤ ·) (a :: as) → x ∈ a :: as → x ≤ as.getLastD a := by
  intro as
  induction as with
  | nil =>
    intro a x _ hx
    rw [List.mem_singleton] at hx
    simp [hx, List.getLastD]
  | cons a' as' ih =>
    intro a x hchain hx
    rw [List.chain'_cons] at hchain
    rw [List.getLastD_cons]
    rcases List.mem_cons.mp hx with rfl | hx'
    · exact le_trans hchain.1 (ih a' a' hchain.2 (List.mem_cons_self a' as'))
    · exact ih a' x hchain.2 hx'

theorem map_cons_getLast? {α : Type} (g : ℚ → α) :
    ∀ (bs : List ℚ) (b : ℚ), ((b :: bs).map g).getLast? = some (g (bs.getLastD b)) := by
  intro bs
  induction bs with
  | nil => intro b; rfl
  | cons b' bs' ih =>
    intro b
    rw [List.getLastD_cons]
    rw [show ((b :: b' :: bs').map g) = g b :: g b' :: (bs'.map g) from rfl]
    rw [List.getLast?_cons_cons]
    exact ih b'

/-- C10: for every batch of parsed, non-negative accumulation values the
reconciled series emitted by `convert_daily_precip_to_cumulative_rain` is
non-decreasing, whether or not the within-day readings are non-decreasing:
every decrease is absorbed as a reset that raises the running offset by the
running maximum. -/
theorem c10_convert_unconditional_monotone (rows : List Row) (vs : List ℚ)
    (hmap : rows.map (·.accum) = vs.map some) (hnn : ∀ v ∈ vs, 0 ≤ v) :
    List.Chain' (· ≤ ·) (accumsOf (convert_daily_precip_to_cumulative_rain rows)) :=
  convert_chain rows vs hmap hnn

/-- Witness for C10 at the decreasing (within-day) input `[2, 1]`, whose
reconciled series `[2, 3]` is still non-decreasing. -/
theorem c10_convert_unconditional_monotone_witness :
    ([mkRow 1 1 2 0 0, mkRow 1 1 1 0 300000000000].map (·.accum) =
      [(2 : ℚ), 1].map some) ∧ (∀ v ∈ [(2 : ℚ), 1], 0 ≤ v) ∧
    List.Chain' (· ≤ ·) (accumsOf (convert_daily_precip_to_cumulative_rain
      [mkRow 1 1 2 0 0, mkRow 1 1 1 0 300000000000])) :=
  ⟨by simp [mkRow], by norm_num,
    c10_convert_unconditional_monotone _ [(2 : ℚ), 1] (by simp [mkRow]) (by norm_num)⟩

/-- C1 (amended): for every sequence of parsed, non-negative accumulation
values with exactly one reset (non-decreasing before the drop, one strict
decrease, non-decreasing after it), the reconciled series is non-decreasing
and its final value is the pre-reset maximum plus the final raw value,
rounded to two decimals; every value is rounded the same way, and the
pre-reset maximum is the value right before the drop.  The last conjunct is
the concrete scenario `[10, 12, 15, 3, 5] ↦ [10, 12, 15, 18, 20]`. -/
theorem c1_single_reset :
    (∀ (rows : List Row) (a b : ℚ) (as bs : List ℚ),
      rows.map (·.accum) = ((a :: as) ++ b :: bs).map some →
      List.Chain' (· ≤ ·) (a :: as) →
      List.Chain' (· ≤ ·) (b :: bs) →
      b < as.getLastD a →
      (∀ x ∈ (a :: as) ++ b :: bs, 0 ≤ x) →
      List.Chain' (· ≤ ·) (accumsOf (convert_daily_precip_to_cumulative_rain rows)) ∧
      (convert_daily_precip_to_cumulative_rain rows).map (·.accum) =
        (a :: as).map (fun v => some (round2 v)) ++
          (b :: bs).map (fun v => some (round2 (as.getLastD a + v))) ∧
      (accumsOf (convert_daily_precip_to_cumulative_rain rows)).getLast? =
        some (round2 (as.getLastD a + bs.getLastD b)) ∧
      (∀ x ∈ a :: as, x ≤ as.getLastD a)) ∧
    (convert_daily_precip_to_cumulative_rain
        [mkRow 4 5 10 0 0, mkRow 4 5 12 0 300000000000, mkRow 4 5 15 0 600000000000,
         mkRow 4 5 3 0 900000000000, mkRow 4 5 5 0 1200000000000]).map (·.accum) =
      [some 10, some 12, some 15, some 18, some 20] := by
  constructor
  · intro rows a b as bs hmap hpre hpost hreset hnn
    rw [List.map_append] at hmap
    obtain ⟨rpre, rpost, hrows, hmapPre, hmapPost⟩ :=
      List.append_eq_map_iff.mp hmap.symm
    subst hrows
    cases rpre with
    | nil => simp at hmapPre
    | cons r0 rpreRest =>
      cases rpost with
      | nil => simp at hmapPost
      | cons rb rpostRest =>
        simp only [List.map_cons, List.cons.injEq] at hmapPre hmapPost
        set M := as.getLastD a with hM
        have hstep0 : convertStep ⟨0, none, 0⟩ a = ⟨0, some a, a⟩ := by
          simp [convertStep]
        have hpreGo : convertGo ⟨(0 : ℚ), none, 0⟩ (r0 :: rpreRest) =
            { r0 with accum := some (round2 (0 + a)) } ::
              convertGo ⟨0, some a, a⟩ rpreRest := by
          simp only [convertGo, hmapPre.1, hstep0]
        have hpreState : convertStateGo ⟨(0 : ℚ), none, 0⟩ (r0 :: rpreRest) =
            ⟨0, some M, M⟩ := by
          have : convertStateGo ⟨(0 : ℚ), none, 0⟩ (r0 :: rpreRest) =
              convertStateGo ⟨0, some a, a⟩ rpreRest := by
            simp only [convertStateGo, hmapPre.1, hstep0]
          rw [this, convertStateGo_asc 0 rpreRest as a hmapPre.2 hpre]
        have hstepb : convertStep ⟨(0 : ℚ), some M, M⟩ b = ⟨0 + M, some b, b⟩ := by
          simp [convertStep, hreset]
        have hpostGo : convertGo ⟨(0 : ℚ), some M, M⟩ (rb :: rpostRest) =
            { rb with accum := some (round2 (0 + M + b)) } ::
              convertGo ⟨0 + M, some b, b⟩ rpostRest := by
          simp only [convertGo, hmapPost.1, hstepb]
        have hsplit : convert_daily_precip_to_cumulative_rain
            ((r0 :: rpreRest) ++ rb :: rpostRest) =
            convertGo ⟨0, none, 0⟩ (r0 :: rpreRest) ++
              convertGo ⟨0, some M, M⟩ (rb :: rpostRest) := by
          rw [convert_daily_precip_to_cumulative_rain, convertGo_append, hpreState]
        have hmapForm : (convert_daily_precip_to_cumulative_rain
            ((r0 :: rpreRest) ++ rb :: rpostRest)).map (·.accum) =
            (a :: as).map (fun v => some (round2 v)) ++
              (b :: bs).map (fun v => some (round2 (M + v))) := by
          rw [hsplit, List.map_append, hpreGo, hpostGo, List.map_cons, List.map_cons,
            convertGo_asc_accums 0 rpreRest as a hmapPre.2 hpre,
            convertGo_asc_accums (0 + M) rpostRest bs b hmapPost.2 hpost]
          simp only [zero_add, List.map_cons]
        refine ⟨?_, hmapForm, ?_, ?_⟩
        · exact convert_chain _ ((a :: as) ++ b :: bs)
            (by simp only [List.map_append] at hmap ⊢
                exact hmap) hnn
        · have haccs : accumsOf (convert_daily_precip_to_cumulative_rain
              ((r0 :: rpreRest) ++ rb :: rpostRest)) =
              (a :: as).map round2 ++ (b :: bs).map (fun v => round2 (M + v)) := by
            apply accumsOf_eq_of_map
            rw [hmapForm]
            simp [List.map_map, Function.comp_def]
          rw [haccs, List.getLast?_append_of_ne_nil _ (by simp),
            map_cons_getLast?]
        · intro x hx
          exact le_getLastD_of_chain' as a x hpre hx
  · with_unfolding_all decide

/-- Witness for C1 at the spec's concrete scenario: the decomposition
`[10, 12, 15] ++ [3, 5]` has one reset (3 < 15) and non-negative values. -/
theorem c1_single_reset_witness :
    List.Chain' (· ≤ ·) [(10 : ℚ), 12, 15] ∧ List.Chain' (· ≤ ·) [(3 : ℚ), 5] ∧
    (3 : ℚ) < [(12 : ℚ), 15].getLastD 10 ∧
    (accumsOf (convert_daily_precip_to_cumulative_rain
        [mkRow 4 5 10 0 0, mkRow 4 5 12 0 300000000000, mkRow 4 5 15 0 600000000000,
         mkRow 4 5 3 0 900000000000, mkRow 4 5 5 0 1200000000000])).getLast? =
      some (round2 ([(12 : ℚ), 15].getLastD 10 + [(5 : ℚ)].getLastD 3)) := by
  refine ⟨?_, ?_, ?_, ?_⟩
  · simp [List.chain'_cons, List.chain'_singleton]
    norm_num
  · simp [List.chain'_cons, List.chain'_singleton]
    norm_num
  · norm_num [List.getLastD_cons]
  · exact (c1_single_reset.1
      [mkRow 4 5 10 0 0, mkRow 4 5 12 0 300000000000, mkRow 4 5 15 0 600000000000,
       mkRow 4 5 3 0 900000000000, mkRow 4 5 5 0 1200000000000]
      10 3 [12, 15] [5]
      (by simp [mkRow])
      (by simp [List.chain'_cons, List.chain'_singleton]; norm_num)
      (by simp [List.chain'_cons, List.chain'_singleton]; norm_num)
      (by norm_num [List.getLastD_cons])
      (by norm_num)).2.2.1

theorem convertGo_accums_2dec : ∀ (rows : List Row) (st : CState),
    ∀ v ∈ accumsOf (convertGo st rows), Is2dec v := by
  intro rows
  induction rows with
  | nil => intro st v hv; simp [convertGo, accumsOf] at hv
  | cons r rs ih =>
    intro st v hv
    match hacc : r.accum with
    | none =>
      rw [show convertGo st (r :: rs) = r :: convertGo st rs by simp [convertGo, hacc]] at hv
      rw [show accumsOf (r :: convertGo st rs) = accumsOf (convertGo st rs) by
        simp [accumsOf, List.filterMap_cons, hacc]] at hv
      exact ih st v hv
    | some cur =>
      have h1 : convertGo st (r :: rs) =
          { r with accum := some (round2 ((convertStep st cur).offset + cur)) } ::
            convertGo (convertStep st cur) rs := by
        simp [convertGo, hacc]
      rw [h1] at hv
      have h2 : accumsOf
          ({ r with accum := some (round2 ((convertStep st cur).offset + cur)) } ::
            convertGo (convertStep st cur) rs) =
          round2 ((convertStep st cur).offset + cur) ::
            accumsOf (convertGo (convertStep st cur) rs) := by
        simp [accumsOf, List.filterMap_cons]
      rw [h2] at hv
      rcases List.mem_cons.mp hv with rfl | hv'
      · exact round2_is2dec _
      · exact ih (convertStep st cur) v hv'

theorem gustPart_fields (rows : List Row) (sf : Bool) (i : ℕ) (row : Row)
    (fixed : List Row) (wa wg : ℚ) :
    (gustPart rows sf i row fixed wa wg).1.speed = row.speed ∧
    (gustPart rows sf i row fixed wa wg).1.accum = row.accum ∧
    (gustPart rows sf i row fixed wa wg).1.rate = row.rate ∧
    (gustPart rows sf i row fixed wa wg).1.time = row.time := by
  unfold gustPart
  by_cases h : isGustOutlierCheck rows i wa wg = true
  · simp [h]
  · simp [h]

theorem timeDelta_pos {t pt : ℤ} (h : pt < t) :
    (0 : ℚ) < ((t - pt : ℤ) : ℚ) / (1000000000 * 60) := by
  apply div_pos
  · exact_mod_cast sub_pos.mpr h
  · norm_num

theorem precipPart_spec (sf : Bool) (i : ℕ) (row1 : Row) (st : DState)
    (pa pr0 : ℚ) (t : ℤ) (pv c : ℚ) (pt : ℤ)
    (h1 : st.prevAccumOriginal = some pv) (h2 : st.prevAccumCorrected = some c)
    (h3 : st.prevTime = some pt)
    (ht : (0 : ℚ) < ((t - pt : ℤ) : ℚ) / (1000000000 * 60)) :
    ((precipPart sf i row1 st pa pr0 t).1.accum = some (round2 c) ∨
      ((0 : ℚ) ≤ pa - pv ∧
        (precipPart sf i row1 st pa pr0 t).1.accum = some (round2 (c + (pa - pv)))) ∨
      (pa - pv < 0 ∧ (precipPart sf i row1 st pa pr0 t).1.accum = some (round2 pa))) ∧
    (precipPart sf i row1 st pa pr0 t).2.2.2.prevAccumOriginal = some pa ∧
    (precipPart sf i row1 st pa pr0 t).2.2.2.prevAccumCorrected =
      (precipPart sf i row1 st pa pr0 t).1.accum ∧
    (precipPart sf i row1 st pa pr0 t).2.2.2.prevTime = some t ∧
    (precipPart sf i row1 st pa pr0 t).1.speed = row1.speed ∧
    (precipPart sf i row1 st pa pr0 t).1.gust = row1.gust ∧
    (precipPart sf i row1 st pa pr0 t).1.time = row1.time := by
  have hth : (0 : ℚ) < ((t - pt : ℤ) : ℚ) / (1000000000 * 60) / 60 := by positivity
  unfold precipPart
  rw [h1, h2, h3]
  dsimp only
  rw [if_pos ht, if_pos hth]
  by_cases hio : precipIsOutlier st.recentDeltas (pa - pv)
      (MAX_PRECIP_DELTA_MM * (((t - pt : ℤ) : ℚ) / (1000000000 * 60) / 5)) = true
  · simp only [hio, if_true]
    simp
  · rw [Bool.not_eq_true] at hio
    simp only [hio, if_false]
    by_cases hd : (0 : ℚ) ≤ pa - pv
    · simp only [if_pos hd]
      simp [hd]
    · simp only [if_neg hd]
      push_neg at hd
      simp [hd]

theorem detectGo_nil (rowsAll : List Row) (sf : Bool) (i : ℕ) (fixed : List Row)
    (st : DState) : detectGo rowsAll sf [] i fixed st = ([], 0, []) := rfl

theorem detectGo_cons (rowsAll : List Row) (sf : Bool) (row : Row) (todo : List Row)
    (i : ℕ) (fixed : List Row) (st : DState) :
    detectGo rowsAll sf (row :: todo) i fixed st =
      ((processRow rowsAll sf i row fixed st).1 ::
          (detectGo rowsAll sf todo (i + 1)
            (fixed ++ [(processRow rowsAll sf i row fixed st).1])
            (processRow rowsAll sf i row fixed st).2.2.2).1,
        (processRow rowsAll sf i row fixed st).2.1 +
          (detectGo rowsAll sf todo (i + 1)
            (fixed ++ [(processRow rowsAll sf i row fixed st).1])
            (processRow rowsAll sf i row fixed st).2.2.2).2.1,
        (processRow rowsAll sf i row fixed st).2.2.1 ++
          (detectGo rowsAll sf todo (i + 1)
            (fixed ++ [(processRow rowsAll sf i row fixed st).1])
            (processRow rowsAll sf i row fixed st).2.2.2).2.2) := by
  rcases hpr : processRow rowsAll sf i row fixed st with ⟨row', sInc, fInc, st'⟩
  rcases hrec : detectGo rowsAll sf todo (i + 1) (fixed ++ [row']) st' with ⟨rest', s, f⟩
  simp only [detectGo, hpr, hrec]

theorem processRow_parsed (rowsAll : List Row) (sf : Bool) (i : ℕ) (row : Row)
    (fixed : List Row) (st : DState) (wa wg pa pr : ℚ) (t : ℤ)
    (hs : row.speed = some wa) (hg : row.gust = some wg) (ha : row.accum = some pa)
    (hr : row.rate = some pr) (htm : row.time = some t) :
    processRow rowsAll sf i row fixed st =
      ((precipPart sf i (gustPart rowsAll sf i row fixed wa wg).1 st pa pr t).1,
        (gustPart rowsAll sf i row fixed wa wg).2.1 +
          (precipPart sf i (gustPart rowsAll sf i row fixed wa wg).1 st pa pr t).2.1,
        (gustPart rowsAll sf i row fixed wa wg).2.2 ++
          (precipPart sf i (gustPart rowsAll sf i row fixed wa wg).1 st pa pr t).2.2.1,
        (precipPart sf i (gustPart rowsAll sf i row fixed wa wg).1 st pa pr t).2.2.2) := by
  rcases hgp : gustPart rowsAll sf i row fixed wa wg with ⟨row1, sg, fg⟩
  rcases hpp : precipPart sf i row1 st pa pr t with ⟨row3, sp, fp, st'⟩
  simp only [processRow, hs, hg, ha, hr, htm, hgp, hpp]

theorem detectGo_accum_chain (rowsAll : List Row) (sf : Bool) :
    ∀ (todo : List Row) (i : ℕ) (fixed : List Row) (st : DState) (pv c : ℚ) (pt : ℤ),
    allParse todo →
    st.prevAccumOriginal = some pv → st.prevAccumCorrected = some c →
    st.prevTime = some pt → Is2dec c →
    List.Chain' (· ≤ ·) (pv :: accumsOf todo) →
    List.Chain' (· < ·) (pt :: timesOf todo) →
    List.Chain' (· ≤ ·) (c :: accumsOf (detectGo rowsAll sf todo i fixed st).1) := by
  intro todo
  induction todo with
  | nil =>
    intro i fixed st pv c pt _ _ _ _ _ _ _
    simp [detectGo_nil, accumsOf]
  | cons row rest ih =>
    intro i fixed st pv c pt hparse h1 h2 h3 h2dec hacc htime
    obtain ⟨hsp, hgu, hac, hra, hti⟩ := hparse row (List.mem_cons_self _ _)
    obtain ⟨wa, hwa⟩ := Option.isSome_iff_exists.mp hsp
    obtain ⟨wg, hwg⟩ := Option.isSome_iff_exists.mp hgu
    obtain ⟨pa, hpa⟩ := Option.isSome_iff_exists.mp hac
    obtain ⟨pr, hpr⟩ := Option.isSome_iff_exists.mp hra
    obtain ⟨t, htt⟩ := Option.isSome_iff_exists.mp hti
    have hparseRest : allParse rest := fun r hr => hparse r (List.mem_cons_of_mem _ hr)
    have haccCons : accumsOf (row :: rest) = pa :: accumsOf rest := by
      simp [accumsOf, List.filterMap_cons, hpa]
    have htimeCons : timesOf (row :: rest) = t :: timesOf rest := by
      simp [timesOf, List.filterMap_cons, htt]
    rw [haccCons, List.chain'_cons] at hacc
    rw [htimeCons, List.chain'_cons] at htime
    have htpos := timeDelta_pos htime.1
    have hspec := precipPart_spec sf i (gustPart rowsAll sf i row fixed wa wg).1 st
      pa pr t pv c pt h1 h2 h3 htpos
    rw [detectGo_cons,
      processRow_parsed rowsAll sf i row fixed st wa wg pa pr t hwa hwg hpa hpr htt]
    dsimp only
    obtain ⟨hcase, hso, hsc, hst, _, _, _⟩ := hspec
    have hmain : ∀ x : ℚ,
        (precipPart sf i (gustPart rowsAll sf i row fixed wa wg).1 st pa pr t).1.accum =
          some x → Is2dec x → c ≤ x →
        List.Chain' (· ≤ ·) (c :: accumsOf
          ((precipPart sf i (gustPart rowsAll sf i row fixed wa wg).1 st pa pr t).1 ::
            (detectGo rowsAll sf rest (i + 1)
              (fixed ++ [(precipPart sf i
                (gustPart rowsAll sf i row fixed wa wg).1 st pa pr t).1])
              (precipPart sf i
                (gustPart rowsAll sf i row fixed wa wg).1 st pa pr t).2.2.2).1)) := by
      intro x hx h2dx hcx
      have haccum2 : accumsOf
          ((precipPart sf i (gustPart rowsAll sf i row fixed wa wg).1 st pa pr t).1 ::
            (detectGo rowsAll sf rest (i + 1)
              (fixed ++ [(precipPart sf i
                (gustPart rowsAll sf i row fixed wa wg).1 st pa pr t).1])
              (precipPart sf i
                (gustPart rowsAll sf i row fixed wa wg).1 st pa pr t).2.2.2).1) =
          x :: accumsOf ((detectGo rowsAll sf rest (i + 1)
              (fixed ++ [(precipPart sf i
                (gustPart rowsAll sf i row fixed wa wg).1 st pa pr t).1])
              (precipPart sf i
                (gustPart rowsAll sf i row fixed wa wg).1 st pa pr t).2.2.2).1) := by
        simp [accumsOf, List.filterMap_cons, hx]
      rw [haccum2]
      refine List.chain'_cons.mpr ⟨hcx, ?_⟩
      exact ih (i + 1) _ _ pa x t hparseRest hso (hsc.trans hx) hst h2dx
        hacc.2 htime.2
    rcases hcase with hx | ⟨hd, hx⟩ | ⟨hd, hx⟩
    · exact hmain (round2 c) hx (round2_is2dec c)
        (le_of_eq (h2dec.round2_eq).symm)
    · refine hmain (round2 (c + (pa - pv))) hx (round2_is2dec _) ?_
      calc c = round2 c := (h2dec.round2_eq).symm
        _ ≤ round2 (c + (pa - pv)) := round2_mono (by linarith)
    · exfalso
      have : pv ≤ pa := hacc.1
      linarith

theorem precipPart_none (sf : Bool) (i : ℕ) (row1 : Row) (st : DState)
    (pa pr0 : ℚ) (t : ℤ) (h : st.prevAccumOriginal = none) :
    precipPart sf i row1 st pa pr0 t =
      (row1, 0, [], ⟨some pa, row1.accum, some t, st.recentDeltas⟩) := by
  unfold precipPart
  rw [h]

theorem accumsOf_eq_of_map_accum_eq {l1 l2 : List Row}
    (h : l1.map (·.accum) = l2.map (·.accum)) : accumsOf l1 = accumsOf l2 := by
  have e1 : accumsOf l1 = List.filterMap id (l1.map (·.accum)) := by
    rw [List.filterMap_map, Function.id_comp]
    rfl
  have e2 : accumsOf l2 = List.filterMap id (l2.map (·.accum)) := by
    rw [List.filterMap_map, Function.id_comp]
    rfl
  rw [e1, e2, h]

/-- C2 (amended): for a fully-parsed batch with strictly increasing
timestamps whose accumulation column is the Reconciler's output on raw rows
with parsed, non-negative accumulation values, the accumulation column of
the series emitted by `detect_and_fix_outliers` is non-decreasing from the
first row to the last. -/
theorem c2_corrected_series_monotone (rows raws : List Row) (vs : List ℚ)
    (hparse : allParse rows) (htimes : timesIncreasing rows)
    (hrawmap : raws.map (·.accum) = vs.map some)
    (hnn : ∀ v ∈ vs, 0 ≤ v)
    (haccum : rows.map (·.accum) =
      (convert_daily_precip_to_cumulative_rain raws).map (·.accum)) :
    List.Chain' (· ≤ ·) (accumsOf (detect_and_fix_outliers rows true).1) := by
  have haccumsEq : accumsOf rows =
      accumsOf (convert_daily_precip_to_cumulative_rain raws) :=
    accumsOf_eq_of_map_accum_eq haccum
  have hchainAll : List.Chain' (· ≤ ·) (accumsOf rows) := by
    rw [haccumsEq]
    exact convert_chain raws vs hrawmap hnn
  have h2decAll : ∀ v ∈ accumsOf rows, Is2dec v := by
    rw [haccumsEq]
    exact convertGo_accums_2dec raws _
  cases rows with
  | nil => simp [detect_and_fix_outliers, detectGo_nil, accumsOf]
  | cons r rest =>
    obtain ⟨hsp, hgu, hac, hra, hti⟩ := hparse r (List.mem_cons_self _ _)
    obtain ⟨wa, hwa⟩ := Option.isSome_iff_exists.mp hsp
    obtain ⟨wg, hwg⟩ := Option.isSome_iff_exists.mp hgu
    obtain ⟨pa, hpa⟩ := Option.isSome_iff_exists.mp hac
    obtain ⟨pr, hpr⟩ := Option.isSome_iff_exists.mp hra
    obtain ⟨t, htt⟩ := Option.isSome_iff_exists.mp hti
    have hparseRest : allParse rest := fun x hx => hparse x (List.mem_cons_of_mem _ hx)
    have haccCons : accumsOf (r :: rest) = pa :: accumsOf rest := by
      simp [accumsOf, List.filterMap_cons, hpa]
    have htimeCons : timesOf (r :: rest) = t :: timesOf rest := by
      simp [timesOf, List.filterMap_cons, htt]
    obtain ⟨hgs, hga, hgr, hgt⟩ := gustPart_fields (r :: rest) true 0 r [] wa wg
    have hrow1acc : (gustPart (r :: rest) true 0 r [] wa wg).1.accum = some pa := by
      rw [hga, hpa]
    rw [detect_and_fix_outliers, detectGo_cons,
      processRow_parsed (r :: rest) true 0 r [] ⟨none, none, none, []⟩
        wa wg pa pr t hwa hwg hpa hpr htt,
      precipPart_none true 0 (gustPart (r :: rest) true 0 r [] wa wg).1
        ⟨none, none, none, []⟩ pa pr t rfl]
    dsimp only
    have haccout : accumsOf ((gustPart (r :: rest) true 0 r [] wa wg).1 ::
        (detectGo (r :: rest) true rest (0 + 1)
          ([] ++ [(gustPart (r :: rest) true 0 r [] wa wg).1])
          ⟨some pa, (gustPart (r :: rest) true 0 r [] wa wg).1.accum, some t, []⟩).1) =
        pa :: accumsOf ((detectGo (r :: rest) true rest (0 + 1)
          ([] ++ [(gustPart (r :: rest) true 0 r [] wa wg).1])
          ⟨some pa, (gustPart (r :: rest) true 0 r [] wa wg).1.accum, some t, []⟩).1) := by
      simp [accumsOf, List.filterMap_cons, hrow1acc]
    rw [haccout]
    have h2pa : Is2dec pa := h2decAll pa (by rw [haccCons]; exact List.mem_cons_self _ _)
    have haccChain : List.Chain' (· ≤ ·) (pa :: accumsOf rest) := by
      rw [← haccCons]
      exact hchainAll
    have htimeChain : List.Chain' (· < ·) (t :: timesOf rest) := by
      rw [← htimeCons]
      exact htimes
    exact detectGo_accum_chain (r :: rest) true rest (0 + 1) _
      ⟨some pa, (gustPart (r :: rest) true 0 r [] wa wg).1.accum, some t, []⟩
      pa pa t hparseRest rfl (by rw [hrow1acc]) rfl h2pa haccChain htimeChain

/-- C2 counterexample: the reconciled output of the parsed raw sequence
`[5, -3]` is `[5, 2]`; feeding it to `detect_and_fix_outliers` (all rows
parse, timestamps strictly increasing) leaves the decreasing series `[5, 2]`
unchanged, so the corrected accumulation column is not non-decreasing. -/
theorem c2_counterexample :
    (convert_daily_precip_to_cumulative_rain negBatch).map (·.accum) =
      [some 5, some 2] ∧
    negDetectBatch.map (·.accum) = [some 5, some 2] ∧
    allParse negDetectBatch ∧ timesIncreasing negDetectBatch ∧
    accumsOf (detect_and_fix_outliers negDetectBatch true).1 = [5, 2] ∧
    ¬ List.Chain' (· ≤ ·) (accumsOf (detect_and_fix_outliers negDetectBatch true).1) := by
  refine ⟨?_, ?_, ?_, ?_, ?_, ?_⟩
  · with_unfolding_all decide
  · with_unfolding_all decide
  · intro r hr
    simp only [negDetectBatch, mkRow, List.mem_cons, List.not_mem_nil, or_false] at hr
    rcases hr with rfl | rfl <;> simp
  · simp only [timesIncreasing, timesOf, negDetectBatch, mkRow, List.filterMap_cons,
      List.filterMap_nil, List.chain'_cons, List.chain'_singleton, and_true]
    norm_num
  · with_unfolding_all decide
  · have h : accumsOf (detect_and_fix_outliers negDetectBatch true).1 = [5, 2] := by
      with_unfolding_all decide
    rw [h]
    simp only [List.chain'_cons, List.chain'_singleton, and_true]
    norm_num

/-- Witness for C2 (amended) at the raw sequence `[2, 1]` (one reset),
whose reconciled series `[2, 3]` passes the detector unchanged. -/
theorem c2_corrected_series_monotone_witness :
    allParse [mkRow 1 1 2 0 0, mkRow 1 1 3 0 300000000000] ∧
    timesIncreasing [mkRow 1 1 2 0 0, mkRow 1 1 3 0 300000000000] ∧
    ([mkRow 1 1 2 0 0, mkRow 1 1 1 0 300000000000].map (·.accum) =
      [(2 : ℚ), 1].map some) ∧
    ([mkRow 1 1 2 0 0, mkRow 1 1 3 0 300000000000].map (·.accum) =
      (convert_daily_precip_to_cumulative_rain
        [mkRow 1 1 2 0 0, mkRow 1 1 1 0 300000000000]).map (·.accum)) ∧
    List.Chain' (· ≤ ·) (accumsOf (detect_and_fix_outliers
      [mkRow 1 1 2 0 0, mkRow 1 1 3 0 300000000000] true).1) := by
  refine ⟨?_, ?_, ?_, ?_, ?_⟩
  · intro r hr
    simp only [List.mem_cons, List.not_mem_nil, or_false, mkRow] at hr
    rcases hr with rfl | rfl <;> simp
  · simp only [timesIncreasing, timesOf, mkRow, List.filterMap_cons,
      List.filterMap_nil, List.chain'_cons, List.chain'_singleton, and_true]
    norm_num
  · simp [mkRow]
  · with_unfolding_all decide
  · exact c2_corrected_series_monotone _
      [mkRow 1 1 2 0 0, mkRow 1 1 1 0 300000000000] [(2 : ℚ), 1]
      (by intro r hr
          simp only [List.mem_cons, List.not_mem_nil, or_false, mkRow] at hr
          rcases hr with rfl | rfl <;> simp)
      (by simp only [timesIncreasing, timesOf, mkRow, List.filterMap_cons,
            List.filterMap_nil, List.chain'_cons, List.chain'_singleton, and_true]
          norm_num)
      (by simp [mkRow])
      (by norm_num)
      (by with_unfolding_all decide)

/-- C1 counterexample: the parsed raw sequence `[5, -3]` has exactly one
reset (one strict decrease) yet its reconciled series `[5, 2]` is strictly
decreasing, because the post-reset value is negative; non-negativity of the
raw values is required for the claimed monotonicity. -/
theorem c1_counterexample :
    negBatch.map (·.accum) = [some 5, some (-3)] ∧ (-3 : ℚ) < 5 ∧
    (convert_daily_precip_to_cumulative_rain negBatch).map (·.accum) =
      [some 5, some 2] ∧
    ¬ List.Chain' (· ≤ ·)
      (accumsOf (convert_daily_precip_to_cumulative_rain negBatch)) := by
  refine ⟨?_, by norm_num, ?_, ?_⟩
  · simp [negBatch, mkRow]
  · with_unfolding_all decide
  · have h : accumsOf (convert_daily_precip_to_cumulative_rain negBatch) = [5, 2] := by
      with_unfolding_all decide
    rw [h]
    simp only [List.chain'_cons, List.chain'_singleton, and_true]
    norm_num

theorem closestGo_spec (t : ℚ) :
    ∀ (pts : List DPoint) (m b : ℚ) (S : List DPoint),
    (∃ g ∈ S, |t - g.time| = m ∧ g.val = b) →
    (∀ g' ∈ S, m ≤ |t - g'.time|) →
    ∃ g ∈ S ++ pts, closestGo t pts (some m) (some b) = some g.val ∧
      ∀ g' ∈ S ++ pts, |t - g.time| ≤ |t - g'.time| := by
  intro pts
  induction pts with
  | nil =>
    intro m b S hw hmin
    obtain ⟨g, hgS, hgd, hgv⟩ := hw
    refine ⟨g, by simpa using hgS, by simp [closestGo, hgv], ?_⟩
    intro g' hg'
    rw [hgd]
    exact hmin g' (by simpa using hg')
  | cons pt rest ih =>
    intro m b S hw hmin
    by_cases hd : |t - pt.time| < m
    · have hw' : ∃ g ∈ S ++ [pt], |t - g.time| = |t - pt.time| ∧ g.val = pt.val :=
        ⟨pt, by simp, rfl, rfl⟩
      have hmin' : ∀ g' ∈ S ++ [pt], |t - pt.time| ≤ |t - g'.time| := by
        intro g' hg'
        rcases List.mem_append.mp hg' with hg' | hg'
        · exact le_of_lt (lt_of_lt_of_le hd (hmin g' hg'))
        · rw [List.mem_singleton.mp hg']
      obtain ⟨g, hgmem, hgeq, hgmin⟩ := ih |t - pt.time| pt.val (S ++ [pt]) hw' hmin'
      refine ⟨g, ?_, ?_, ?_⟩
      · simpa [List.append_assoc] using hgmem
      · rw [show closestGo t (pt :: rest) (some m) (some b) =
          closestGo t rest (some |t - pt.time|) (some pt.val) by
            simp [closestGo, hd]]
        exact hgeq
      · intro g' hg'
        apply hgmin
        simpa [List.append_assoc] using hg'
    · have hmin' : ∀ g' ∈ S ++ [pt], m ≤ |t - g'.time| := by
        intro g' hg'
        rcases List.mem_append.mp hg' with hg' | hg'
        · exact hmin g' hg'
        · rw [List.mem_singleton.mp hg']
          exact not_lt.mp hd
      have hw' : ∃ g ∈ S ++ [pt], |t - g.time| = m ∧ g.val = b := by
        obtain ⟨g, hgS, hgd, hgv⟩ := hw
        exact ⟨g, List.mem_append.mpr (Or.inl hgS), hgd, hgv⟩
      obtain ⟨g, hgmem, hgeq, hgmin⟩ := ih m b (S ++ [pt]) hw' hmin'
      refine ⟨g, ?_, ?_, ?_⟩
      · simpa [List.append_assoc] using hgmem
      · rw [show closestGo t (pt :: rest) (some m) (some b) =
          closestGo t rest (some m) (some b) by simp [closestGo, hd]]
        exact hgeq
      · intro g' hg'
        apply hgmin
        simpa [List.append_assoc] using hg'

theorem closestRainMm_spec (pts : List DPoint) (t : ℚ) (hne : pts ≠ []) :
    ∃ g ∈ pts, closestRainMm pts t = some g.val ∧
      ∀ g' ∈ pts, |t - g.time| ≤ |t - g'.time| := by
  cases pts with
  | nil => exact absurd rfl hne
  | cons p rest =>
    have hstep : closestRainMm (p :: rest) t =
        closestGo t rest (some |t - p.time|) (some p.val) := by
      simp [closestRainMm, closestGo]
    obtain ⟨g, hgmem, hgeq, hgmin⟩ := closestGo_spec t rest |t - p.time| p.val [p]
      ⟨p, by simp, rfl, rfl⟩ (by intro g' hg'; rw [List.mem_singleton.mp hg'])
    exact ⟨g, by simpa using hgmem, by rw [hstep]; exact hgeq,
      fun g' hg' => hgmin g' (by simpa using hg')⟩

theorem rebuildDay_fst (rain : List DPoint) (base : ℚ) (pt : DPoint)
    (rest : List DPoint) (pt0 : Option ℚ) (pr : ℚ) (cv : ℚ)
    (hc : closestRainMm rain pt.time = some cv) :
    ∃ pt0' pr', (rebuildDay rain base (pt :: rest) pt0 pr).1 =
      (⟨pt.time, max 0 (cv - base)⟩ : DPoint) ::
        (rebuildDay rain base rest pt0' pr').1 := by
  cases pt0 with
  | none =>
    rcases hrec : rebuildDay rain base rest (some pt.time) (max 0 (cv - base))
      with ⟨ds, rs⟩
    exact ⟨some pt.time, max 0 (cv - base), by simp [rebuildDay, hc, hrec]⟩
  | some t0 =>
    by_cases h300 : (300 : ℚ) ≤ pt.time - t0
    · rcases hrec : rebuildDay rain base rest (some pt.time) (max 0 (cv - base))
        with ⟨ds, rs⟩
      exact ⟨some pt.time, max 0 (cv - base), by simp [rebuildDay, hc, h300, hrec]⟩
    · rcases hrec : rebuildDay rain base rest (some t0) pr with ⟨ds, rs⟩
      exact ⟨some t0, pr, by simp [rebuildDay, hc, h300, hrec]⟩

theorem rebuildDay_daily_spec (rain : List DPoint) (base : ℚ) (hne : rain ≠ []) :
    ∀ (daily : List DPoint) (pt0 : Option ℚ) (pr : ℚ),
    (rebuildDay rain base daily pt0 pr).1.map (·.time) = daily.map (·.time) ∧
    ∀ p ∈ (rebuildDay rain base daily pt0 pr).1,
      ∃ g ∈ rain, (∀ g' ∈ rain, |p.time - g.time| ≤ |p.time - g'.time|) ∧
        p.val = max 0 (g.val - base) := by
  intro daily
  induction daily with
  | nil =>
    intro pt0 pr
    constructor
    · rfl
    · intro p hp
      simp [rebuildDay] at hp
  | cons pt rest ih =>
    intro pt0 pr
    obtain ⟨g, hgmem, hgeq, hgmin⟩ := closestRainMm_spec rain pt.time hne
    obtain ⟨pt0', pr', hfst⟩ := rebuildDay_fst rain base pt rest pt0 pr g.val hgeq
    rw [hfst]
    obtain ⟨ihmap, ihmem⟩ := ih pt0' pr'
    constructor
    · simp only [List.map_cons, ihmap]
    · intro p hp
      rcases List.mem_cons.mp hp with rfl | hp'
      · exact ⟨g, hgmem, hgmin, rfl⟩
      · exact ihmem p hp'

/-- C7: when `reconstruct_daily_rain` detects a restart and both stored
series have at least 2 points, the rebuilt series has one point per original
"rain today" timestamp, and every rebuilt value equals
`max(0, g - baseline)` where `baseline` is the first ground-truth value of
the day and `g` a ground-truth sample whose timestamp attains the minimal
absolute time difference to that point's timestamp.  The sortedness
hypothesis on the ground-truth timestamps reflects the chronologically
sorted, distinct-timestamp query result over which the Python dict preserves
insertion order. -/
theorem c7_rebuild_from_ground_truth (daily rain : List DPoint)
    (h2a : 2 ≤ daily.length) (h2b : 2 ≤ rain.length)
    (hrs : detectRestart daily = true)
    (hsorted : List.Chain' (· < ·) (rain.map (·.time))) :
    ∃ ds rs, reconstruct_daily_rain daily rain = RResult.rebuilt ds rs ∧
      ds.map (·.time) = daily.map (·.time) ∧
      ∀ p ∈ ds, ∃ g ∈ rain,
        (∀ g' ∈ rain, |p.time - g.time| ≤ |p.time - g'.time|) ∧
        p.val = max 0 (g.val - (rain.headD ⟨0, 0⟩).val) := by
  have hne : rain ≠ [] := by
    intro h
    rw [h] at h2b
    simp at h2b
  have hlen : ¬(daily.length < 2 ∨ rain.length < 2) := by omega
  rcases hrb : rebuildDay rain (rain.headD ⟨0, 0⟩).val daily none 0 with ⟨ds, rs⟩
  refine ⟨ds, rs, ?_, ?_, ?_⟩
  · rw [reconstruct_daily_rain, if_neg hlen, if_pos hrs]
    simp only [hrb]
  · have := (rebuildDay_daily_spec rain (rain.headD ⟨0, 0⟩).val hne daily none 0).1
    rw [hrb] at this
    exact this
  · have := (rebuildDay_daily_spec rain (rain.headD ⟨0, 0⟩).val hne daily none 0).2
    rw [hrb] at this
    exact this

/-- Witness for C7: daily series `[(0, 5), (300, 1), (600, 3)]` (restart at
300) against ground truth `[(0, 10), (610, 13)]`. -/
theorem c7_rebuild_from_ground_truth_witness :
    detectRestart [(⟨0, 5⟩ : DPoint), ⟨300, 1⟩, ⟨600, 3⟩] = true ∧
    (∃ ds rs, reconstruct_daily_rain [(⟨0, 5⟩ : DPoint), ⟨300, 1⟩, ⟨600, 3⟩]
        [(⟨0, 10⟩ : DPoint), ⟨610, 13⟩] = RResult.rebuilt ds rs ∧
      ds.map (·.time) = [(0 : ℚ), 300, 600] ∧
      ∀ p ∈ ds, ∃ g ∈ [(⟨0, 10⟩ : DPoint), ⟨610, 13⟩],
        (∀ g' ∈ [(⟨0, 10⟩ : DPoint), ⟨610, 13⟩],
          |p.time - g.time| ≤ |p.time - g'.time|) ∧
        p.val = max 0 (g.val -
          ([(⟨0, 10⟩ : DPoint), ⟨610, 13⟩].headD ⟨0, 0⟩).val)) := by
  constructor
  · with_unfolding_all decide
  · obtain ⟨ds, rs, h1, h2, h3⟩ := c7_rebuild_from_ground_truth
      [(⟨0, 5⟩ : DPoint), ⟨300, 1⟩, ⟨600, 3⟩] [(⟨0, 10⟩ : DPoint), ⟨610, 13⟩]
      (by norm_num) (by norm_num)
      (by with_unfolding_all decide)
      (by simp only [List.map_cons, List.map_nil, List.chain'_cons,
            List.chain'_singleton, and_true]
          norm_num)
    exact ⟨ds, rs, h1, by rw [h2]; rfl, h3⟩

theorem processRow_unparsed (rowsAll : List Row) (sf : Bool) (i : ℕ) (row : Row)
    (fixed : List Row) (st : DState)
    (h : row.speed = none ∨ row.gust = none ∨ row.accum = none ∨
      row.rate = none ∨ row.time = none) :
    processRow rowsAll sf i row fixed st = (row, 0, [], st) := by
  rcases hs : row.speed with _ | wa
  · unfold processRow
    rw [hs]
  · rcases hg : row.gust with _ | wg
    · unfold processRow
      rw [hs, hg]
    · rcases ha : row.accum with _ | pa
      · unfold processRow
        rw [hs, hg, ha]
      · rcases hr : row.rate with _ | pr
        · unfold processRow
          rw [hs, hg, ha, hr]
        · rcases htm : row.time with _ | t
          · unfold processRow
            rw [hs, hg, ha, hr, htm]
          · rcases h with h | h | h | h | h <;>
              first
                | exact absurd h (by rw [hs]; exact Option.some_ne_none wa)
                | exact absurd h (by rw [hg]; exact Option.some_ne_none wg)
                | exact absurd h (by rw [ha]; exact Option.some_ne_none pa)
                | exact absurd h (by rw [hr]; exact Option.some_ne_none pr)
                | exact absurd h (by rw [htm]; exact Option.some_ne_none t)

theorem gustPart_fixes (rows : List Row) (sf : Bool) (i : ℕ) (row : Row)
    (fixed : List Row) (wa wg : ℚ) :
    ∀ f ∈ (gustPart rows sf i row fixed wa wg).2.2,
      f.row = i + 2 ∧ f.kind = FixKind.windGust := by
  unfold gustPart
  by_cases h : isGustOutlierCheck rows i wa wg = true
  · cases sf <;> simp [h]
  · simp [h]

theorem precipPart_fixes (sf : Bool) (i : ℕ) (row1 : Row) (st : DState)
    (pa pr0 : ℚ) (t : ℤ) :
    (∀ f ∈ (precipPart sf i row1 st pa pr0 t).2.2.1, f.row = i + 2) ∧
    ((∃ f ∈ (precipPart sf i row1 st pa pr0 t).2.2.1,
        f.kind = FixKind.precipAccum) →
      (precipPart sf i row1 st pa pr0 t).1.rate = some 0) ∧
    ((∀ f ∈ (precipPart sf i row1 st pa pr0 t).2.2.1,
        f.kind ≠ FixKind.precipAccum) → sf = true →
      (precipPart sf i row1 st pa pr0 t).1.rate = row1.rate) := by
  rcases h1 : st.prevAccumOriginal with _ | pv
  · unfold precipPart
    rw [h1]
    exact ⟨by simp, by simp, by simp⟩
  · rcases h2 : st.prevAccumCorrected with _ | c
    · unfold precipPart
      rw [h1, h2]
      exact ⟨by simp, by simp, by simp⟩
    · rcases h3 : st.prevTime with _ | pt
      · unfold precipPart
        rw [h1, h2, h3]
        exact ⟨by simp, by simp, by simp⟩
      · by_cases ht : (0 : ℚ) < ((t - pt : ℤ) : ℚ) / (1000000000 * 60)
        · have hth : (0 : ℚ) < ((t - pt : ℤ) : ℚ) / (1000000000 * 60) / 60 := by
            positivity
          unfold precipPart
          rw [h1, h2, h3]
          dsimp only
          rw [if_pos ht, if_pos hth]
          by_cases hio : precipIsOutlier st.recentDeltas (pa - pv)
              (MAX_PRECIP_DELTA_MM * (((t - pt : ℤ) : ℚ) / (1000000000 * 60) / 5)) = true
          · simp only [hio, if_true]
            have hzero : max 0 (min (round2 ((c - c) /
                (((t - pt : ℤ) : ℚ) / (1000000000 * 60) / 60))) MAX_PRECIP_RATE_MMH)
                = 0 := by
              rw [sub_self, zero_div, round2_zero]
              rw [min_eq_left (by norm_num [MAX_PRECIP_RATE_MMH])]
              exact max_eq_left le_rfl
            refine ⟨?_, ?_, ?_⟩
            · intro f hf
              rcases sf with _ | _ <;> simp at hf <;>
                first
                  | (rcases hf with hf | hf <;> simp [hf])
                  | simp [hf]
            · intro _
              show some (max 0 (min (round2 ((c - c) /
                  (((t - pt : ℤ) : ℚ) / (1000000000 * 60) / 60)))
                  MAX_PRECIP_RATE_MMH)) = some 0
              rw [hzero]
            · intro hnone hsf
              exfalso
              subst hsf
              exact hnone ⟨FixKind.precipAccum, i + 2, pa, round2 c⟩ (by simp) rfl
          · rw [Bool.not_eq_true] at hio
            simp only [hio, if_false]
            by_cases hd : (0 : ℚ) ≤ pa - pv
            · simp only [if_pos hd]
              exact ⟨by simp, by simp, by simp⟩
            · simp only [if_neg hd]
              exact ⟨by simp, by simp, by simp⟩
        · unfold precipPart
          rw [h1, h2, h3]
          dsimp only
          rw [if_neg ht]
          exact ⟨by simp, by simp, by simp⟩

theorem processRow_step_fixes (rowsAll : List Row) (i : ℕ) (row : Row)
    (fixed : List Row) (st : DState) :
    (∀ f ∈ (processRow rowsAll true i row fixed st).2.2.1, f.row = i + 2) ∧
    ((∃ f ∈ (processRow rowsAll true i row fixed st).2.2.1,
        f.kind = FixKind.precipAccum) →
      (processRow rowsAll true i row fixed st).1.rate = some 0) ∧
    ((∀ f ∈ (processRow rowsAll true i row fixed st).2.2.1,
        f.kind ≠ FixKind.precipAccum) →
      (processRow rowsAll true i row fixed st).1.rate = row.rate) := by
  by_cases hp : row.speed = none ∨ row.gust = none ∨ row.accum = none ∨
      row.rate = none ∨ row.time = none
  · rw [processRow_unparsed rowsAll true i row fixed st hp]
    exact ⟨by simp, by simp, by simp⟩
  · push_neg at hp
    obtain ⟨hs, hg, ha, hr, htm⟩ := hp
    obtain ⟨wa, hwa⟩ := Option.ne_none_iff_exists'.mp hs
    obtain ⟨wg, hwg⟩ := Option.ne_none_iff_exists'.mp hg
    obtain ⟨pa, hpa⟩ := Option.ne_none_iff_exists'.mp ha
    obtain ⟨pr, hpr⟩ := Option.ne_none_iff_exists'.mp hr
    obtain ⟨t, htt⟩ := Option.ne_none_iff_exists'.mp htm
    rw [processRow_parsed rowsAll true i row fixed st wa wg pa pr t hwa hwg hpa hpr htt]
    dsimp only
    obtain ⟨hrowG, hg2, hg3⟩ :=
      precipPart_fixes true i (gustPart rowsAll true i row fixed wa wg).1 st pa pr t
    have hgust := gustPart_fixes rowsAll true i row fixed wa wg
    obtain ⟨_, _, hgrate, _⟩ := gustPart_fields rowsAll true i row fixed wa wg
    refine ⟨?_, ?_, ?_⟩
    · intro f hf
      rcases List.mem_append.mp hf with hf | hf
      · exact (hgust f hf).1
      · exact hrowG f hf
    · rintro ⟨f, hf, hk⟩
      rcases List.mem_append.mp hf with hf | hf
      · exact absurd hk (by rw [(hgust f hf).2]; simp)
      · exact hg2 ⟨f, hf, hk⟩
    · intro hnone
      rw [hg3 (fun f hf => hnone f (List.mem_append.mpr (Or.inr hf))) rfl, hgrate]

theorem detectGo_rate_frame (rowsAll : List Row) :
    ∀ (todo : List Row) (i : ℕ) (fixed : List Row) (st : DState) (j : ℕ),
    (∀ f ∈ (detectGo rowsAll true todo i fixed st).2.2,
        f.kind = FixKind.precipAccum → f.row ≠ i + j + 2) →
    ((detectGo rowsAll true todo i fixed st).1[j]?.map (·.rate)) =
      (todo[j]?.map (·.rate)) := by
  intro todo
  induction todo with
  | nil =>
    intro i fixed st j _
    simp [detectGo_nil]
  | cons row rest ih =>
    intro i fixed st j hnofix
    rw [detectGo_cons] at hnofix ⊢
    dsimp only at hnofix ⊢
    obtain ⟨hrows, hzero, hframe⟩ := processRow_step_fixes rowsAll i row fixed st
    cases j with
    | zero =>
      simp only [List.getElem?_cons_zero, Option.map_some]
      have heq : (processRow rowsAll true i row fixed st).1.rate = row.rate := by
        apply hframe
        intro f hf hk
        exact (hnofix f (List.mem_append.mpr (Or.inl hf)) hk) (by rw [hrows f hf])
      show some (processRow rowsAll true i row fixed st).1.rate = some row.rate
      rw [heq]
    | succ j' =>
      simp only [List.getElem?_cons_succ]
      apply ih (i + 1) _ _ j'
      intro f hf hk
      have := hnofix f (List.mem_append.mpr (Or.inr hf)) hk
      omega

/-- C5: the precipitation-rate cell of a row is rewritten only when that row
received a precipitation-accumulation correction: for every index with no
`precip_accum` correction event, the output `Precip_Rate_mm` equals the
input exactly. -/
theorem c5_rate_frame (rows : List Row) (i : ℕ)
    (h : ∀ f ∈ (detect_and_fix_outliers rows true).2.2,
      f.kind = FixKind.precipAccum → f.row ≠ i + 2) :
    ((detect_and_fix_outliers rows true).1[i]?.map (·.rate)) =
      (rows[i]?.map (·.rate)) := by
  apply detectGo_rate_frame rows rows 0 [] ⟨none, none, none, []⟩ i
  intro f hf hk
  have := h f hf hk
  omega

/-- Witness for C5 on a batch with no corrections at all. -/
theorem c5_rate_frame_witness :
    (∀ f ∈ (detect_and_fix_outliers calmBatch true).2.2,
      f.kind = FixKind.precipAccum → f.row ≠ 0 + 2) ∧
    ((detect_and_fix_outliers calmBatch true).1[0]?.map (·.rate)) =
      (calmBatch[0]?.map (·.rate)) :=
  ⟨by with_unfolding_all decide, c5_rate_frame calmBatch 0 (by with_unfolding_all decide)⟩

theorem detectGo_precip_fix_rate (rowsAll : List Row) :
    ∀ (todo : List Row) (i : ℕ) (fixed : List Row) (st : DState),
    ∀ f ∈ (detectGo rowsAll true todo i fixed st).2.2,
      i + 2 ≤ f.row ∧
      (f.kind = FixKind.precipAccum →
        ∃ r, (detectGo rowsAll true todo i fixed st).1[f.row - 2 - i]? = some r ∧
          r.rate = some 0) := by
  intro todo
  induction todo with
  | nil =>
    intro i fixed st f hf
    rw [detectGo_nil] at hf
    simp at hf
  | cons row rest ih =>
    intro i fixed st f hf
    rw [detectGo_cons] at hf ⊢
    dsimp only at hf ⊢
    obtain ⟨hrows, hzero, _⟩ := processRow_step_fixes rowsAll i row fixed st
    rcases List.mem_append.mp hf with hstep | hrest
    · have hfrow : f.row = i + 2 := hrows f hstep
      refine ⟨by omega, fun hk => ?_⟩
      have hidx : f.row - 2 - i = 0 := by omega
      rw [hidx]
      simp only [List.getElem?_cons_zero]
      exact ⟨(processRow rowsAll true i row fixed st).1, rfl, hzero ⟨f, hstep, hk⟩⟩
    · obtain ⟨hge, hrec⟩ := ih (i + 1) _ _ f hrest
      refine ⟨by omega, fun hk => ?_⟩
      obtain ⟨r, hr1, hr2⟩ := hrec hk
      refine ⟨r, ?_, hr2⟩
      have hidx : f.row - 2 - i = (f.row - 2 - (i + 1)) + 1 := by omega
      rw [hidx]
      simp only [List.getElem?_cons_succ]
      exact hr1

/-- C9: every row flagged as a precipitation-accumulation outlier gets its
precipitation rate recomputed to exactly 0: the corrected accumulation is
set to the previous corrected accumulation, so the corrected delta is 0 and
the clamped rate formula yields 0. -/
theorem c9_flagged_rate_zero (rows : List Row) (f : FixEvent)
    (hf : f ∈ (detect_and_fix_outliers rows true).2.2)
    (hk : f.kind = FixKind.precipAccum) :
    ∃ r, (detect_and_fix_outliers rows true).1[f.row - 2]? = some r ∧
      r.rate = some 0 := by
  have := (detectGo_precip_fix_rate rows rows 0 [] ⟨none, none, none, []⟩ f hf).2 hk
  simpa using this

/-- Witness for C9 at the 100 mm spike of `c9Batch`. -/
theorem c9_flagged_rate_zero_witness :
    (⟨FixKind.precipAccum, 3, 100, 0⟩ : FixEvent) ∈
      (detect_and_fix_outliers c9Batch true).2.2 ∧
    ∃ r, (detect_and_fix_outliers c9Batch true).1[(3 : ℕ) - 2]? = some r ∧
      r.rate = some 0 :=
  ⟨by with_unfolding_all decide,
    c9_flagged_rate_zero c9Batch ⟨FixKind.precipAccum, 3, 100, 0⟩
      (by with_unfolding_all decide) rfl⟩

theorem Row.update_accum_self {r : Row} {pa : ℚ} (h : r.accum = some pa) :
    ({ r with accum := some pa } : Row) = r := by
  cases r
  simp only [Row.mk.injEq, and_true, true_and]
  exact h.symm

theorem gustPart_zero (rows : List Row) (sf : Bool) (i : ℕ) (row : Row)
    (fixed : List Row) (wa wg : ℚ)
    (h : (gustPart rows sf i row fixed wa wg).2.1.windGustOutliers = 0) :
    (gustPart rows sf i row fixed wa wg).1 = row := by
  unfold gustPart at h ⊢
  by_cases hc : isGustOutlierCheck rows i wa wg = true
  · rw [if_pos hc] at h
    simp at h
  · rw [if_neg hc]

theorem precipPart_id (i : ℕ) (row1 : Row) (st : DState) (pa pr0 : ℚ) (t : ℤ)
    (pv : ℚ) (pt : ℤ)
    (h1 : st.prevAccumOriginal = some pv) (h2 : st.prevAccumCorrected = some pv)
    (h3 : st.prevTime = some pt)
    (ht : (0 : ℚ) < ((t - pt : ℤ) : ℚ) / (1000000000 * 60))
    (hacc : row1.accum = some pa) (h2dec : Is2dec pa)
    (hz : (precipPart true i row1 st pa pr0 t).2.1.precipAccumOutliers = 0) :
    (precipPart true i row1 st pa pr0 t).1 = row1 ∧
    (precipPart true i row1 st pa pr0 t).2.2.2.prevAccumOriginal = some pa ∧
    (precipPart true i row1 st pa pr0 t).2.2.2.prevAccumCorrected = some pa ∧
    (precipPart true i row1 st pa pr0 t).2.2.2.prevTime = some t := by
  have hth : (0 : ℚ) < ((t - pt : ℤ) : ℚ) / (1000000000 * 60) / 60 := by positivity
  unfold precipPart at hz ⊢
  rw [h1, h2, h3] at hz ⊢
  dsimp only at hz ⊢
  rw [if_pos ht] at hz ⊢
  rw [if_pos hth] at hz ⊢
  by_cases hio : precipIsOutlier st.recentDeltas (pa - pv)
      (MAX_PRECIP_DELTA_MM * (((t - pt : ℤ) : ℚ) / (1000000000 * 60) / 5)) = true
  · rw [hio] at hz
    simp only [if_true] at hz
    exact absurd hz (by
      have : (((⟨0, 1, 0⟩ : Stats) + ⟨0, 0, 1⟩) : Stats).precipAccumOutliers = 1 := rfl
      omega)
  · rw [Bool.not_eq_true] at hio
    rw [hio]
    simp only [if_false]
    by_cases hd : (0 : ℚ) ≤ pa - pv
    · rw [if_pos hd]
      have hval : round2 (pv + (pa - pv)) = pa := by
        rw [show pv + (pa - pv) = pa by ring, h2dec.round2_eq]
      rw [hval]
      have hrow : ({ row1 with accum := some pa } : Row) = row1 :=
        Row.update_accum_self hacc
      rw [hrow]
      simp [hacc]
    · rw [if_neg hd]
      have hval : round2 pa = pa := h2dec.round2_eq
      rw [hval]
      have hrow : ({ row1 with accum := some pa } : Row) = row1 :=
        Row.update_accum_self hacc
      rw [hrow]
      simp [hacc]

theorem detectGo_id (rowsAll : List Row) :
    ∀ (todo : List Row) (i : ℕ) (fixed : List Row) (st : DState) (pv : ℚ) (pt : ℤ),
    allParse todo →
    (∀ v ∈ accumsOf todo, Is2dec v) →
    List.Chain' (· < ·) (pt :: timesOf todo) →
    st.prevAccumOriginal = some pv → st.prevAccumCorrected = some pv →
    st.prevTime = some pt →
    (detectGo rowsAll true todo i fixed st).2.1 = 0 →
    (detectGo rowsAll true todo i fixed st).1 = todo := by
  intro todo
  induction todo with
  | nil =>
    intro i fixed st pv pt _ _ _ _ _ _ _
    rw [detectGo_nil]
  | cons row rest ih =>
    intro i fixed st pv pt hparse h2dec htime h1 h2 h3 hz
    obtain ⟨hsp, hgu, hac, hra, hti⟩ := hparse row (List.mem_cons_self _ _)
    obtain ⟨wa, hwa⟩ := Option.isSome_iff_exists.mp hsp
    obtain ⟨wg, hwg⟩ := Option.isSome_iff_exists.mp hgu
    obtain ⟨pa, hpa⟩ := Option.isSome_iff_exists.mp hac
    obtain ⟨pr, hpr⟩ := Option.isSome_iff_exists.mp hra
    obtain ⟨t, htt⟩ := Option.isSome_iff_exists.mp hti
    have hparseRest : allParse rest := fun x hx => hparse x (List.mem_cons_of_mem _ hx)
    have haccCons : accumsOf (row :: rest) = pa :: accumsOf rest := by
      simp [accumsOf, List.filterMap_cons, hpa]
    have htimeCons : timesOf (row :: rest) = t :: timesOf rest := by
      simp [timesOf, List.filterMap_cons, htt]
    rw [haccCons] at h2dec
    rw [htimeCons, List.chain'_cons] at htime
    have h2decPa : Is2dec pa := h2dec pa (List.mem_cons_self _ _)
    have h2decRest : ∀ v ∈ accumsOf rest, Is2dec v :=
      fun v hv => h2dec v (List.mem_cons_of_mem _ hv)
    have htpos := timeDelta_pos htime.1
    rw [detectGo_cons,
      processRow_parsed rowsAll true i row fixed st wa wg pa pr t
        hwa hwg hpa hpr htt] at hz ⊢
    dsimp only at hz ⊢
    obtain ⟨hzInc, hzRest⟩ := Stats.add_eq_zero hz
    obtain ⟨hzGust, hzPrecip⟩ := Stats.add_eq_zero hzInc
    have hzGust' : (gustPart rowsAll true i row fixed wa wg).2.1.windGustOutliers = 0 := by
      rw [hzGust]
      rfl
    have hG : (gustPart rowsAll true i row fixed wa wg).1 = row :=
      gustPart_zero rowsAll true i row fixed wa wg hzGust'
    rw [hG] at hz hzPrecip hzRest ⊢
    have hzPrecip' : (precipPart true i row st pa pr t).2.1.precipAccumOutliers = 0 := by
      rw [hzPrecip]
      rfl
    obtain ⟨hrow3, hso, hsc, hst⟩ :=
      precipPart_id i row st pa pr t pv pt h1 h2 h3 htpos hpa h2decPa hzPrecip'
    rw [hrow3] at hzRest ⊢
    rw [ih (i + 1) (fixed ++ [row]) _ pa t hparseRest h2decRest htime.2 hso hsc hst hzRest]

/-- C6 (amended): on a fully-parsed batch with strictly increasing
timestamps whose accumulation values are exact multiples of 0.01, if the
first pass of `detect_and_fix_outliers` makes zero corrections then it
returns its input unchanged, and a second pass also makes zero corrections
and returns the batch unchanged.  (Unconditional idempotence fails: see the
counterexample, where a first-pass gust correction creates a new calm
neighbourhood that the second pass corrects.) -/
theorem c6_no_correction_stable (rows : List Row)
    (hparse : allParse rows) (htimes : timesIncreasing rows)
    (h2dec : ∀ v ∈ accumsOf rows, Is2dec v)
    (hz : (detect_and_fix_outliers rows true).2.1 = 0) :
    (detect_and_fix_outliers rows true).1 = rows ∧
    (detect_and_fix_outliers (detect_and_fix_outliers rows true).1 true).2.1 = 0 ∧
    (detect_and_fix_outliers (detect_and_fix_outliers rows true).1 true).1 = rows := by
  have hfirst : (detect_and_fix_outliers rows true).1 = rows := by
    cases rows with
    | nil => rfl
    | cons r rest =>
      obtain ⟨hsp, hgu, hac, hra, hti⟩ := hparse r (List.mem_cons_self _ _)
      obtain ⟨wa, hwa⟩ := Option.isSome_iff_exists.mp hsp
      obtain ⟨wg, hwg⟩ := Option.isSome_iff_exists.mp hgu
      obtain ⟨pa, hpa⟩ := Option.isSome_iff_exists.mp hac
      obtain ⟨pr, hpr⟩ := Option.isSome_iff_exists.mp hra
      obtain ⟨t, htt⟩ := Option.isSome_iff_exists.mp hti
      have hparseRest : allParse rest := fun x hx => hparse x (List.mem_cons_of_mem _ hx)
      have haccCons : accumsOf (r :: rest) = pa :: accumsOf rest := by
        simp [accumsOf, List.filterMap_cons, hpa]
      have htimeCons : timesOf (r :: rest) = t :: timesOf rest := by
        simp [timesOf, List.filterMap_cons, htt]
      rw [haccCons] at h2dec
      have h2decRest : ∀ v ∈ accumsOf rest, Is2dec v :=
        fun v hv => h2dec v (List.mem_cons_of_mem _ hv)
      have htimeRest : List.Chain' (· < ·) (t :: timesOf rest) := by
        rw [timesIncreasing, htimeCons] at htimes
        exact htimes
      rw [detect_and_fix_outliers, detectGo_cons,
        processRow_parsed (r :: rest) true 0 r [] ⟨none, none, none, []⟩
          wa wg pa pr t hwa hwg hpa hpr htt,
        precipPart_none true 0 (gustPart (r :: rest) true 0 r [] wa wg).1
          ⟨none, none, none, []⟩ pa pr t rfl] at hz ⊢
      dsimp only at hz ⊢
      obtain ⟨hzInc, hzRest⟩ := Stats.add_eq_zero hz
      obtain ⟨hzGust, _⟩ := Stats.add_eq_zero hzInc
      have hzGust' :
          (gustPart (r :: rest) true 0 r [] wa wg).2.1.windGustOutliers = 0 := by
        rw [hzGust]
        rfl
      have hG : (gustPart (r :: rest) true 0 r [] wa wg).1 = r :=
        gustPart_zero (r :: rest) true 0 r [] wa wg hzGust'
      rw [hG] at hzRest ⊢
      rw [detectGo_id (r :: rest) rest (0 + 1) ([] ++ [r])
        ⟨some pa, r.accum, some t, []⟩ pa t hparseRest h2decRest htimeRest
        rfl (by rw [hpa]) rfl hzRest]
  refine ⟨hfirst, ?_, ?_⟩
  · rw [hfirst]
    exact hz
  · rw [hfirst]
    exact hfirst

/-- Witness for C6 (amended) on `calmBatch`, which the detector leaves
untouched. -/
theorem c6_no_correction_stable_witness :
    allParse calmBatch ∧ timesIncreasing calmBatch ∧
    (∀ v ∈ accumsOf calmBatch, Is2dec v) ∧
    (detect_and_fix_outliers calmBatch true).2.1 = 0 ∧
    (detect_and_fix_outliers calmBatch true).1 = calmBatch ∧
    (detect_and_fix_outliers (detect_and_fix_outliers calmBatch true).1 true).2.1 = 0 ∧
    (detect_and_fix_outliers
      (detect_and_fix_outliers calmBatch true).1 true).1 = calmBatch := by
  have hparse : allParse calmBatch := by
    intro r hr
    simp only [calmBatch, mkRow, List.mem_cons, List.not_mem_nil, or_false] at hr
    rcases hr with rfl | rfl <;> simp
  have htimes : timesIncreasing calmBatch := by
    simp only [timesIncreasing, timesOf, calmBatch, mkRow, List.filterMap_cons,
      List.filterMap_nil, List.chain'_cons, List.chain'_singleton, and_true]
    norm_num
  have h2dec : ∀ v ∈ accumsOf calmBatch, Is2dec v := by
    have h : accumsOf calmBatch = [0, 1] := by with_unfolding_all decide
    rw [h]
    intro v hv
    rcases List.mem_cons.mp hv with rfl | hv'
    · exact ⟨0, by norm_num⟩
    · rw [List.mem_singleton.mp hv']
      exact ⟨100, by norm_num⟩
  have hz : (detect_and_fix_outliers calmBatch true).2.1 = 0 := by
    with_unfolding_all decide
  obtain ⟨h1, h2, h3⟩ := c6_no_correction_stable calmBatch hparse htimes h2dec hz
  exact ⟨hparse, htimes, h2dec, hz, h1, h2, h3⟩
